import Mathlib

/-!
# Verification of the api-concierge protocol core

Shallow embedding of `api_concierge_lib/api_concierge_lib.py`: the JSON value
model, the state codec (`_serialize`, `_serialize_state`, `_deserialize_state`,
including the JSON printer/parser and URL-safe base64 used by them), and the
four message types (`SchemaRequest`, `SchemaResponse`, `InvocationRequest`,
`ErrorResponse`) with their predicates, loaders and emitters.

Modelling conventions:
* Python values that can flow through the protocol are modelled by `Val`
  (JSON data model; floats are outside the embedding, numbers are `Int`).
* Python `Mapping`s are association lists in iteration (insertion) order.
* Python `Optional` attributes that default to `None` are modelled as `Val`
  with `Val.none` standing for Python `None` (a dataclass cannot distinguish
  an absent keyword argument from an explicitly passed `None`).
* Fallible Python code (raising) is embedded with `Except PyErr`.
* Python `str.lower` and `str.startswith` are embedded by the list-based
  `strLower` and `strStarts` below (ASCII scope, which covers every reserved
  protocol field name).
-/

namespace ApiConcierge

/-- The JSON/Python value model: `None`, `bool`, `int`, `str`, `list`, `dict`
with string keys in insertion order.  Floats are outside the embedding. -/
inductive Val where
  | none : Val
  | bool (b : Bool) : Val
  | int (n : Int) : Val
  | str (s : String) : Val
  | list (xs : List Val) : Val
  | dict (entries : List (String × Val)) : Val

/-- Exception kinds raised by the library code. -/
inductive PyErr where
  /-- Python `TypeError`. -/
  | typeError : PyErr
  /-- Python `ValueError`. -/
  | valueError : PyErr
  /-- `InvalidRequestError`. -/
  | invalidRequest : PyErr
  /-- `InvalidStateError`. -/
  | invalidState : PyErr
deriving DecidableEq, Repr

/-- A Python `Mapping[str, Any]` in iteration order. -/
abbrev PyDict := List (String × Val)

/-- Python `str.lower` (ASCII scope): lower-case every character. -/
def strLower (s : String) : String := String.mk (s.data.map Char.toLower)

/-- Python `str.startswith`. -/
def strStarts (s pre : String) : Bool := pre.data.isPrefixOf s.data

mutual

/-- Python `==` on the value model: structural except that `bool` compares
equal to the corresponding `int` (Python `True == 1`) and `dict` comparison is
order-insensitive (same length, every key of the left found in the right with
an equal value). -/
def pyEq : Val → Val → Bool
  | .none, .none => true
  | .bool a, .bool b => a == b
  | .bool a, .int n => (if a then (1 : Int) else 0) == n
  | .int n, .bool b => n == (if b then (1 : Int) else 0)
  | .int m, .int n => m == n
  | .str a, .str b => a == b
  | .list xs, .list ys => pyEqList xs ys
  | .dict xs, .dict ys => xs.length == ys.length && pyEqDict xs ys
  | _, _ => false
termination_by a b => sizeOf a + sizeOf b
decreasing_by all_goals (simp_wf <;> omega)

/-- Pointwise Python `==` on lists (Python list equality). -/
def pyEqList : List Val → List Val → Bool
  | [], [] => true
  | x :: xs, y :: ys => pyEq x y && pyEqList xs ys
  | _, _ => false
termination_by xs ys => sizeOf xs + sizeOf ys
decreasing_by all_goals (simp_wf <;> omega)

/-- Every entry of the first dict is present in the second with an equal value. -/
def pyEqDict : List (String × Val) → List (String × Val) → Bool
  | [], _ => true
  | (k, v) :: xs, ys => pyEqLookup k v ys && pyEqDict xs ys
termination_by xs ys => sizeOf xs + sizeOf ys
decreasing_by all_goals (simp_wf <;> omega)

/-- Look up `k` in an association list and compare the found value with `v`. -/
def pyEqLookup : String → Val → List (String × Val) → Bool
  | _, _, [] => false
  | k, v, (k2, v2) :: ys => if k2 = k then pyEq v v2 else pyEqLookup k v ys
termination_by _ v ys => sizeOf v + sizeOf ys
decreasing_by all_goals (simp_wf <;> omega)

end

/-- Python `v == s` for a string literal `s`: no Python value other than the
string itself compares equal to a `str`, so this is `pyEq v (.str s)`
specialised to a structurally recursive (hence kernel-reducible) form. -/
def pyEqStr (v : Val) (s : String) : Bool :=
  match v with
  | .str t => t == s
  | _ => false

/-- Python truthiness on the value model (`if self.schema:`). -/
def pyTruthy : Val → Bool
  | .none => false
  | .bool b => b
  | .int n => n != 0
  | .str s => s != ""
  | .list xs => !xs.isEmpty
  | .dict es => !es.isEmpty

/-- `FIELD_PREFIX = "x-api-concierge-"`. -/
def fieldPfx : String := "x-api-concierge-"

/-- `REQUEST_FIELD`. -/
def REQUEST_FIELD : String := fieldPfx ++ "request"

/-- `RESPONSE_FIELD`. -/
def RESPONSE_FIELD : String := fieldPfx ++ "response"

/-- `SCHEMA_FIELD`. -/
def SCHEMA_FIELD : String := fieldPfx ++ "schema"

/-- `INSTRUCTIONS_FIELD`. -/
def INSTRUCTIONS_FIELD : String := fieldPfx ++ "instructions"

/-- `CLIENT_FIELD`. -/
def CLIENT_FIELD : String := fieldPfx ++ "client"

/-- `ERROR_FIELD`. -/
def ERROR_FIELD : String := fieldPfx ++ "error"

/-- `STATE_FIELD`. -/
def STATE_FIELD : String := fieldPfx ++ "state"

/-- `BASE_FIELD`. -/
def BASE_FIELD : String := fieldPfx ++ "base"

/-- `PATH_FIELD`. -/
def PATH_FIELD : String := fieldPfx ++ "path"

/-! ## URL-safe base64 (`base64.urlsafe_b64encode` / `urlsafe_b64decode`)

Bytes are `Nat`s below 256.  `b64decode` is the behaviour of
`urlsafe_b64decode` on well-formed base64 input (correct length and padding);
Python additionally discards some malformed characters before decoding, a
lenient path that no claim exercises. -/

/-- The URL-safe base64 alphabet, index to character. -/
def b64Char (n : Nat) : Char :=
  if n < 26 then Char.ofNat (65 + n)
  else if n < 52 then Char.ofNat (97 + (n - 26))
  else if n < 62 then Char.ofNat (48 + (n - 52))
  else if n = 62 then '-'
  else '_'

/-- Character to base64 index.  `urlsafe_b64decode` only translates `-` and
`_` to the standard alphabet before decoding, so `+` and `/` stay valid. -/
def b64Val (c : Char) : Option Nat :=
  if 'A' ≤ c ∧ c ≤ 'Z' then some (c.toNat - 65)
  else if 'a' ≤ c ∧ c ≤ 'z' then some (26 + (c.toNat - 97))
  else if '0' ≤ c ∧ c ≤ '9' then some (52 + (c.toNat - 48))
  else if c = '-' ∨ c = '+' then some 62
  else if c = '_' ∨ c = '/' then some 63
  else Option.none

/-- `base64.urlsafe_b64encode`: 3 bytes to 4 characters, `=`-padded. -/
def b64encode : List Nat → List Char
  | [] => []
  | [a] => [b64Char (a / 4), b64Char (a % 4 * 16), '=', '=']
  | [a, b] => [b64Char (a / 4), b64Char (a % 4 * 16 + b / 16), b64Char (b % 16 * 4), '=']
  | a :: b :: c :: rest =>
    b64Char (a / 4) :: b64Char (a % 4 * 16 + b / 16) :: b64Char (b % 16 * 4 + c / 64)
      :: b64Char (c % 64) :: b64encode rest

/-- `base64.urlsafe_b64decode` on well-formed input. -/
def b64decode : List Char → Option (List Nat)
  | [] => some []
  | c1 :: c2 :: c3 :: c4 :: rest =>
    match b64Val c1, b64Val c2 with
    | some n1, some n2 =>
      if c3 = '=' ∧ c4 = '=' ∧ rest = [] then some [n1 * 4 + n2 / 16]
      else
        match b64Val c3 with
        | some n3 =>
          if c4 = '=' ∧ rest = [] then some [n1 * 4 + n2 / 16, n2 % 16 * 16 + n3 / 4]
          else
            match b64Val c4 with
            | some n4 =>
              (b64decode rest).map
                (fun bs => (n1 * 4 + n2 / 16) :: (n2 % 16 * 16 + n3 / 4) :: (n3 % 4 * 64 + n4) :: bs)
            | Option.none => Option.none
        | Option.none => Option.none
    | _, _ => Option.none
  | _ => Option.none

/-! ## `json.dumps` (default options: `ensure_ascii=True`, separators
`", "` and `": "`) -/

/-- Lower-case hex digit (as emitted by `json`'s `\uXXXX` escapes). -/
def hexDig (n : Nat) : Char :=
  if n < 10 then Char.ofNat (48 + n) else Char.ofNat (87 + n)

/-- Four hex digits of a number below 0x10000. -/
def hex4 (n : Nat) : List Char :=
  [hexDig (n / 4096 % 16), hexDig (n / 256 % 16), hexDig (n / 16 % 16), hexDig (n % 16)]

/-- One character of a JSON string, escaped exactly as `json.dumps` emits it
with `ensure_ascii=True`: `"` and `\` and the five short escapes, printable
ASCII verbatim, everything else as `\uXXXX` (surrogate pairs beyond 0xFFFF). -/
def escapeChar (c : Char) : List Char :=
  if c = '"' then ['\\', '"']
  else if c = '\\' then ['\\', '\\']
  else if c = Char.ofNat 8 then ['\\', 'b']
  else if c = Char.ofNat 12 then ['\\', 'f']
  else if c = '\n' then ['\\', 'n']
  else if c = Char.ofNat 13 then ['\\', 'r']
  else if c = '\t' then ['\\', 't']
  else if 32 ≤ c.toNat ∧ c.toNat ≤ 126 then [c]
  else if c.toNat < 65536 then '\\' :: 'u' :: hex4 c.toNat
  else
    ('\\' :: 'u' :: hex4 (55296 + (c.toNat - 65536) / 1024))
      ++ ('\\' :: 'u' :: hex4 (56320 + (c.toNat - 65536) % 1024))

/-- Escape every character of a string body. -/
def escList : List Char → List Char
  | [] => []
  | c :: cs => escapeChar c ++ escList cs

/-- Decimal digits of `n`, most significant first (`repr` of a Python `int`),
with explicit fuel to stay kernel-reducible; any `fuel > n` is exact. -/
def natDigitsGo : Nat → Nat → List Char
  | 0, _ => []
  | fuel + 1, n =>
    if n < 10 then [Char.ofNat (48 + n)]
    else natDigitsGo fuel (n / 10) ++ [Char.ofNat (48 + n % 10)]

/-- Decimal digits of `n`. -/
def natDigits (n : Nat) : List Char := natDigitsGo (n + 1) n

/-- Python `str` of an `int`. -/
def intChars (i : Int) : List Char :=
  if i < 0 then '-' :: natDigits i.natAbs else natDigits i.toNat

mutual

/-- `json.dumps` with its default options, producing the character list of the
(ASCII) document. -/
def dumpsVal : Val → List Char
  | .none => "null".data
  | .bool b => if b then "true".data else "false".data
  | .int i => intChars i
  | .str s => '"' :: (escList s.data ++ ['"'])
  | .list xs => '[' :: dumpsArr xs
  | .dict es => Char.ofNat 123 :: dumpsObj es

/-- Array contents after `[`, including the closing `]`. -/
def dumpsArr : List Val → List Char
  | [] => [']']
  | x :: xs => dumpsVal x ++ dumpsArrRest xs

/-- Later array items, each after a `", "` separator. -/
def dumpsArrRest : List Val → List Char
  | [] => [']']
  | x :: xs => ',' :: ' ' :: (dumpsVal x ++ dumpsArrRest xs)

/-- Object contents after the opening brace, including the closing brace. -/
def dumpsObj : List (String × Val) → List Char
  | [] => [Char.ofNat 125]
  | (k, v) :: es => '"' :: (escList k.data ++ '"' :: ':' :: ' ' :: (dumpsVal v ++ dumpsObjRest es))

/-- Later object entries, each after a `", "` separator. -/
def dumpsObjRest : List (String × Val) → List Char
  | [] => [Char.ofNat 125]
  | (k, v) :: es =>
    ',' :: ' ' :: '"' :: (escList k.data ++ '"' :: ':' :: ' ' :: (dumpsVal v ++ dumpsObjRest es))

end

/-! ## `json.loads`

A faithful parser for the JSON fragment the value model covers: numbers with
a fraction or exponent part (floats) and the non-standard `NaN`/`Infinity`
literals are outside the model, so the parser rejects them.  Recursion is
fuelled (one unit per `[`/brace nesting step) to remain kernel-reducible;
`loadsChars` supplies provably sufficient fuel. -/

/-- JSON whitespace (`json.decoder.WHITESPACE`). -/
def isJsonWs (c : Char) : Bool := c = ' ' ∨ c = '\t' ∨ c = '\n' ∨ c = Char.ofNat 13

/-- Drop leading JSON whitespace. -/
def skipWs : List Char → List Char
  | [] => []
  | c :: cs => if isJsonWs c then skipWs cs else c :: cs

/-- Hex digit value (both cases, as `\uXXXX` parsing accepts). -/
def hexVal (c : Char) : Option Nat :=
  if '0' ≤ c ∧ c ≤ '9' then some (c.toNat - 48)
  else if 'a' ≤ c ∧ c ≤ 'f' then some (10 + (c.toNat - 97))
  else if 'A' ≤ c ∧ c ≤ 'F' then some (10 + (c.toNat - 65))
  else Option.none

/-- Value of four hex digits. -/
def hexVal4 (a b c d : Char) : Option Nat := do
  let x ← hexVal a
  let y ← hexVal b
  let z ← hexVal c
  let w ← hexVal d
  pure (x * 4096 + y * 256 + z * 16 + w)

/-- The short-escape table of `json`'s string scanner (`BACKSLASH`). -/
def escTable (e : Char) : Option Char :=
  if e = '"' then some '"'
  else if e = '\\' then some '\\'
  else if e = '/' then some '/'
  else if e = 'b' then some (Char.ofNat 8)
  else if e = 'f' then some (Char.ofNat 12)
  else if e = 'n' then some '\n'
  else if e = 'r' then some (Char.ofNat 13)
  else if e = 't' then some '\t'
  else Option.none

mutual

/-- `json`'s string scanner after the opening quote (strict mode): body
characters until `"`, backslash escapes including `\uXXXX` with surrogate-pair
combination, control characters rejected.  A lone surrogate (which Python
would keep as an unpaired-surrogate `str`) is not representable as Lean
`Char` data and is rejected. -/
def parseStrBody : List Char → Option (List Char × List Char)
  | [] => Option.none
  | c :: rest =>
    if c = '"' then some ([], rest)
    else if c = '\\' then parseEsc rest
    else if c.toNat < 32 then Option.none
    else (parseStrBody rest).map (fun p => (c :: p.1, p.2))

/-- The character after a backslash: `\uXXXX` or a short escape. -/
def parseEsc : List Char → Option (List Char × List Char)
  | [] => Option.none
  | e :: rest2 =>
    if e = 'u' then parseHexEsc rest2
    else
      match escTable e with
      | some d => (parseStrBody rest2).map (fun p => (d :: p.1, p.2))
      | Option.none => Option.none

/-- The four hex digits after `\u`, with surrogate-pair handling. -/
def parseHexEsc : List Char → Option (List Char × List Char)
  | h1 :: h2 :: h3 :: h4 :: rest3 =>
    match hexVal4 h1 h2 h3 h4 with
    | Option.none => Option.none
    | some n =>
      if 55296 ≤ n ∧ n ≤ 56319 then parseLowSurr n rest3
      else if 56320 ≤ n ∧ n ≤ 57343 then Option.none
      else (parseStrBody rest3).map (fun p => (Char.ofNat n :: p.1, p.2))
  | _ => Option.none

/-- After a high surrogate: require `\u` and the low surrogate's digits. -/
def parseLowSurr (n : Nat) : List Char → Option (List Char × List Char)
  | b1 :: b2 :: rest4 =>
    if b1 = '\\' ∧ b2 = 'u' then parseLowSurrHex n rest4 else Option.none
  | _ => Option.none

/-- The low surrogate's hex digits; combine the pair into one scalar. -/
def parseLowSurrHex (n : Nat) : List Char → Option (List Char × List Char)
  | g1 :: g2 :: g3 :: g4 :: rest5 =>
    match hexVal4 g1 g2 g3 g4 with
    | Option.none => Option.none
    | some m =>
      if 56320 ≤ m ∧ m ≤ 57343 then
        (parseStrBody rest5).map
          (fun p => (Char.ofNat (65536 + (n - 55296) * 1024 + (m - 56320)) :: p.1, p.2))
      else Option.none
  | _ => Option.none

end

/-- Accumulate decimal digits. -/
def digitsValGo (acc : Nat) : List Char → Nat
  | [] => acc
  | c :: cs => digitsValGo (acc * 10 + (c.toNat - 48)) cs

/-- Split the longest digit run off the front. -/
def takeDigits : List Char → List Char × List Char
  | [] => ([], [])
  | c :: cs =>
    if c.isDigit then
      let p := takeDigits cs
      (c :: p.1, p.2)
    else ([], c :: cs)

/-- After an integer literal, `.`/`e`/`E` would extend the token to a float
(outside the model, rejected); anything else ends the number. -/
def numStop (r : List Char) : Bool :=
  match r with
  | [] => true
  | c :: _ => !(c = '.' ∨ c = 'e' ∨ c = 'E')

/-- Scan an unsigned JSON integer (`0|[1-9][0-9]*`). -/
def parseNatNum : List Char → Option (Nat × List Char)
  | [] => Option.none
  | c :: rest =>
    if c = '0' then
      if numStop rest then some (0, rest) else Option.none
    else if c.isDigit then
      let p := takeDigits (c :: rest)
      if numStop p.2 then some (digitsValGo 0 p.1, p.2) else Option.none
    else Option.none

/-- Scan a JSON integer with optional sign. -/
def parseNumber : List Char → Option (Val × List Char)
  | '-' :: rest => (parseNatNum rest).map (fun p => (Val.int (-(p.1 : Int)), p.2))
  | cs => (parseNatNum cs).map (fun p => (Val.int (p.1 : Int), p.2))

/-- Python `dict.__setitem__` on the association-list model: overwrite in
place if the key exists (keeping its position), else append. -/
def pyDictSet : PyDict → String → Val → PyDict
  | [], k, v => [(k, v)]
  | (k2, v2) :: es, k, v =>
    if k2 = k then (k2, v) :: es else (k2, v2) :: pyDictSet es k v

/-- Consume an expected literal character sequence (how the scanner matches
the tails of `null`, `true`, `false`). -/
def dropLit : List Char → List Char → Option (List Char)
  | [], cs => some cs
  | _ :: _, [] => Option.none
  | l :: ls, c :: cs => if c = l then dropLit ls cs else Option.none

mutual

/-- `json`'s `scan_once` at a non-whitespace position. -/
def parseVal : Nat → List Char → Option (Val × List Char)
  | 0, _ => Option.none
  | fuel + 1, cs =>
    match cs with
    | [] => Option.none
    | c :: rest =>
      if c = '"' then (parseStrBody rest).map (fun p => (Val.str (String.mk p.1), p.2))
      else if c = '[' then parseArr fuel (skipWs rest)
      else if c = Char.ofNat 123 then parseObj fuel (skipWs rest)
      else if c = 'n' then (dropLit ['u', 'l', 'l'] rest).map (fun r => (Val.none, r))
      else if c = 't' then (dropLit ['r', 'u', 'e'] rest).map (fun r => (Val.bool true, r))
      else if c = 'f' then (dropLit ['a', 'l', 's', 'e'] rest).map (fun r => (Val.bool false, r))
      else if c = '-' ∨ c.isDigit then parseNumber (c :: rest)
      else Option.none

/-- Array body after `[` and whitespace. -/
def parseArr : Nat → List Char → Option (Val × List Char)
  | 0, _ => Option.none
  | fuel + 1, cs =>
    match cs with
    | [] => Option.none
    | c :: r =>
      if c = ']' then some (Val.list [], r)
      else
        match parseVal fuel (c :: r) with
        | some (v, r1) =>
          match parseArrRest fuel (skipWs r1) with
          | some (vs, r2) => some (Val.list (v :: vs), r2)
          | Option.none => Option.none
        | Option.none => Option.none

/-- Array items after the first, each behind `,`; ends at `]`. -/
def parseArrRest : Nat → List Char → Option (List Val × List Char)
  | 0, _ => Option.none
  | fuel + 1, cs =>
    match cs with
    | [] => Option.none
    | c :: r =>
      if c = ']' then some ([], r)
      else if c = ',' then
        match parseVal fuel (skipWs r) with
        | some (v, r2) =>
          match parseArrRest fuel (skipWs r2) with
          | some (vs, r3) => some (v :: vs, r3)
          | Option.none => Option.none
        | Option.none => Option.none
      else Option.none

/-- Object body after the opening brace and whitespace.  Entries are collected
with `pyDictSet`, matching Python's duplicate-key behaviour (last value wins,
first position kept). -/
def parseObj : Nat → List Char → Option (Val × List Char)
  | 0, _ => Option.none
  | fuel + 1, cs =>
    match cs with
    | c :: r =>
      if c = Char.ofNat 125 then some (Val.dict [], r)
      else if c = '"' then
        match parseStrBody r with
        | some (kcs, r1) =>
          match skipWs r1 with
          | ':' :: r2 =>
            match parseVal fuel (skipWs r2) with
            | some (v, r3) => parseObjRest fuel (pyDictSet [] (String.mk kcs) v) (skipWs r3)
            | Option.none => Option.none
          | _ => Option.none
        | Option.none => Option.none
      else Option.none
    | [] => Option.none

/-- Object entries after the first; ends at the closing brace. -/
def parseObjRest : Nat → PyDict → List Char → Option (Val × List Char)
  | 0, _, _ => Option.none
  | fuel + 1, acc, cs =>
    match cs with
    | c :: r =>
      if c = Char.ofNat 125 then some (Val.dict acc, r)
      else if c = ',' then
        match skipWs r with
        | '"' :: r1 =>
          match parseStrBody r1 with
          | some (kcs, r2) =>
            match skipWs r2 with
            | ':' :: r3 =>
              match parseVal fuel (skipWs r3) with
              | some (v, r4) => parseObjRest fuel (pyDictSet acc (String.mk kcs) v) (skipWs r4)
              | Option.none => Option.none
            | _ => Option.none
          | Option.none => Option.none
        | _ => Option.none
      else Option.none
    | [] => Option.none

end

mutual

/-- Fuel sufficient for `parseVal` on the output of `dumpsVal`. -/
def needV : Val → Nat
  | .list xs => 1 + needArr xs
  | .dict es => 1 + needObj es
  | _ => 1

/-- Fuel sufficient for `parseArr` on the output of `dumpsArr`. -/
def needArr : List Val → Nat
  | [] => 1
  | x :: xs => 1 + Nat.max (needV x) (needArrRest xs)

/-- Fuel sufficient for `parseArrRest` on the output of `dumpsArrRest`. -/
def needArrRest : List Val → Nat
  | [] => 1
  | x :: xs => 1 + Nat.max (needV x) (needArrRest xs)

/-- Fuel sufficient for `parseObj` on the output of `dumpsObj`. -/
def needObj : List (String × Val) → Nat
  | [] => 1
  | (_, v) :: es => 1 + Nat.max (needV v) (needObjRest es)

/-- Fuel sufficient for `parseObjRest` on the output of `dumpsObjRest`. -/
def needObjRest : List (String × Val) → Nat
  | [] => 1
  | (_, v) :: es => 1 + Nat.max (needV v) (needObjRest es)

end

/-- `json.loads` on a character list: skip leading whitespace, scan one value,
require only trailing whitespace. -/
def loadsChars (cs : List Char) : Option Val :=
  match parseVal ((skipWs cs).length + 1) (skipWs cs) with
  | some (v, rest) => if (skipWs rest).isEmpty then some v else Option.none
  | Option.none => Option.none

/-- Decode bytes to text as `json.loads` does for `bytes` input.  The model
covers ASCII payloads, which is every byte string `_serialize` can produce
(`ensure_ascii=True`); non-ASCII bytes are rejected. -/
def asciiDecode : List Nat → Option (List Char)
  | [] => some []
  | b :: bs =>
    if b < 128 then (asciiDecode bs).map (fun cs => Char.ofNat b :: cs) else Option.none

/-- `json.loads` on bytes. -/
def loadsBytes (bs : List Nat) : Option Val :=
  match asciiDecode bs with
  | some cs => loadsChars cs
  | Option.none => Option.none

/-! ## The state codec (`_serialize`, `_serialize_state`, `_deserialize_state`) -/

/-- `_serialize`: `json.dumps`, encode to ASCII bytes, URL-safe base64. -/
def pySerialize (v : Val) : String :=
  String.mk (b64encode ((dumpsVal v).map Char.toNat))

/-- Whether a character is in the class the source regex
`[^A-Za-z0-9,;-_=]` negates.  `;-_` inside the bracket expression is the
RANGE 0x3B–0x5F (so `<>?@[\]^_` are allowed and `-` is not). -/
def pyAllowedChar (c : Char) : Bool :=
  ('A' ≤ c ∧ c ≤ 'Z') ∨ ('a' ≤ c ∧ c ≤ 'z') ∨ ('0' ≤ c ∧ c ≤ '9')
    ∨ c = ',' ∨ (';' ≤ c ∧ c ≤ '_') ∨ c = '='

/-- `re.match(r"[^A-Za-z0-9,;-_=]", state)` is truthy: `re.match` anchors at
position 0, so only the FIRST character is tested against the negated class. -/
def reMatchBad (s : String) : Bool :=
  match s.data with
  | [] => false
  | c :: _ => !pyAllowedChar c

/-- `_serialize_state`. -/
def serialize_state (state : Val) (serialized : Bool) : Except PyErr String :=
  if serialized then .ok (pySerialize state)
  else
    match state with
    | .str s => if reMatchBad s then .error .valueError else .ok s
    | _ => .error .typeError

/-- `_deserialize_state`.  With `serialized=False` the value is returned
unchanged; otherwise base64-decode then `json.loads`, any failure (including
the `TypeError` from handing a non-`str` to `urlsafe_b64decode`) wrapped as
`InvalidStateError`. -/
def deserialize_state (state_data : Val) (serialized : Bool) : Except PyErr Val :=
  if serialized = false then .ok state_data
  else
    match state_data with
    | .str s =>
      match b64decode s.data with
      | some bs =>
        match loadsBytes bs with
        | some v => .ok v
        | Option.none => .error .invalidState
      | Option.none => .error .invalidState
    | _ => .error .invalidState

/-- First-match lookup in an association list (Python `dict` access for the
well-formed, duplicate-free mappings the emitters build). -/
def dictGet (k : String) : PyDict → Option Val
  | [] => Option.none
  | (k2, v) :: es => if k2 = k then some v else dictGet k es

/-! ## Well-formedness: values that are images of Python values

A Python `dict` cannot hold two equal keys, so a `Val` models a Python value
only when every `dict` layer has pairwise distinct keys. -/

/-- String membership in a list. -/
def strIn (k : String) : List String → Bool
  | [] => false
  | x :: xs => k == x || strIn k xs

/-- No string occurs twice. -/
def dupFree : List String → Bool
  | [] => true
  | k :: ks => !strIn k ks && dupFree ks

mutual

/-- The value is the image of a Python value: dict keys are duplicate-free,
recursively. -/
def wfVal : Val → Bool
  | .list xs => wfList xs
  | .dict es => dupFree (es.map Prod.fst) && wfObjVals es
  | _ => true

/-- All list elements well-formed. -/
def wfList : List Val → Bool
  | [] => true
  | x :: xs => wfVal x && wfList xs

/-- All dict values well-formed. -/
def wfObjVals : List (String × Val) → Bool
  | [] => true
  | (_, v) :: es => wfVal v && wfObjVals es

end

/-- Python `v is None` on the value model. -/
def isNone : Val → Bool
  | .none => true
  | _ => false

/-! ## `SchemaRequest` -/

/-- The `SchemaRequest` dataclass.  `client` defaults to Python `None`
(`Val.none`); a dataclass cannot distinguish an absent `client` keyword from
an explicit `None`. -/
structure SchemaRequest where
  client : Val

/-- `SchemaRequest.is_schema_request`: scan the entries; at the first key that
lower-cases to the reserved request field, return whether its value equals
`"schema"`; if no key matches, `False`. -/
def is_schema_request : PyDict → Bool
  | [] => false
  | (data_field, data_value) :: rest =>
    if strLower data_field = strLower REQUEST_FIELD then pyEqStr data_value "schema"
    else is_schema_request rest

/-- The `client` extraction loop of `SchemaRequest.load`: the value of the
first key that lower-cases to the reserved client field (the loop `break`s on
the first match), else `None`. -/
def findClient : PyDict → Val
  | [] => Val.none
  | (k, v) :: rest =>
    if strLower k = strLower CLIENT_FIELD then v else findClient rest

/-- `SchemaRequest.load`. -/
def SchemaRequest.load (data : PyDict) : Except PyErr SchemaRequest :=
  if is_schema_request data = false then .error .invalidRequest
  else .ok ⟨findClient data⟩

/-! ## `SchemaResponse` -/

/-- The `SchemaResponse` dataclass (all optional fields default to `None`). -/
structure SchemaResponse where
  schema : Val
  instructions : Val
  state : Val
  base : Val
  path : Val

/-- `SchemaResponse(...)` including `__post_init__`: constructing with `path`
set and `base` unset raises `ValueError`. -/
def SchemaResponse.make (schema instructions state base path : Val) :
    Except PyErr SchemaResponse :=
  if !isNone path && isNone base then .error .valueError
  else .ok ⟨schema, instructions, state, base, path⟩

/-- `SchemaResponse.get_payload`: `response`/`schema` always (schema
verbatim), then `instructions` verbatim, `state` through the state codec,
`base` verbatim with `path` verbatim nested under the `base` check. -/
def SchemaResponse.get_payload (r : SchemaResponse) (serialized_state : Bool := true) :
    Except PyErr PyDict := do
  let p1 : PyDict := [(RESPONSE_FIELD, Val.str "schema"), (SCHEMA_FIELD, r.schema)]
  let p2 := if isNone r.instructions then p1 else p1 ++ [(INSTRUCTIONS_FIELD, r.instructions)]
  let p3 ←
    if isNone r.state then pure p2
    else do
      let s ← serialize_state r.state serialized_state
      pure (p2 ++ [(STATE_FIELD, Val.str s)])
  let p4 :=
    if isNone r.base then p3
    else (p3 ++ [(BASE_FIELD, r.base)]) ++ (if isNone r.path then [] else [(PATH_FIELD, r.path)])
  pure p4

/-- `SchemaResponse.get_headers`: like `get_payload` but `schema` and `base`
always go through `_serialize`; `instructions` and `path` stay plain. -/
def SchemaResponse.get_headers (r : SchemaResponse) (serialized_state : Bool := true) :
    Except PyErr PyDict := do
  let p1 : PyDict := [(RESPONSE_FIELD, Val.str "schema"), (SCHEMA_FIELD, Val.str (pySerialize r.schema))]
  let p2 := if isNone r.instructions then p1 else p1 ++ [(INSTRUCTIONS_FIELD, r.instructions)]
  let p3 ←
    if isNone r.state then pure p2
    else do
      let s ← serialize_state r.state serialized_state
      pure (p2 ++ [(STATE_FIELD, Val.str s)])
  let p4 :=
    if isNone r.base then p3
    else (p3 ++ [(BASE_FIELD, Val.str (pySerialize r.base))])
      ++ (if isNone r.path then [] else [(PATH_FIELD, r.path)])
  pure p4

/-! ## `InvocationRequest` -/

/-- The `InvocationRequest` dataclass. -/
structure InvocationRequest where
  payload : PyDict
  client : Val
  state : Val

/-- The scan loop of `InvocationRequest._identify`: `found` is whether the
reserved request field has been seen (with value `"invoke"`), `st` the last
value seen under the reserved state field.  A request field with any value
other than `"invoke"` returns `(False, None)` immediately. -/
def identifyGo : PyDict → Bool → Val → Bool × Val
  | [], found, st => if found then (true, st) else (false, Val.none)
  | (data_field, data_value) :: rest, found, st =>
    if strLower data_field = strLower REQUEST_FIELD then
      if pyEqStr data_value "invoke" = false then (false, Val.none)
      else identifyGo rest true st
    else if strLower data_field = strLower STATE_FIELD then identifyGo rest found data_value
    else identifyGo rest found st

/-- `InvocationRequest._identify`. -/
def identify (data : PyDict) : Bool × Val := identifyGo data false Val.none

/-- `InvocationRequest.is_invocation_request`. -/
def is_invocation_request (data : PyDict) (state : Val := Val.none)
    (serialized_state : Bool := true) : Except PyErr Bool :=
  let r := identify data
  if r.1 = false then .ok false
  else if isNone state then .ok true
  else
    match deserialize_state r.2 serialized_state with
    | .ok data_state => .ok (pyEq state data_state)
    | .error e => .error e

/-- The payload/client loop of `InvocationRequest.load_from_payload`: keys
without the (case-sensitive) reserved prefix are copied into `payload`; a key
that lower-cases to the reserved client field sets `client` and `break`s the
loop (ending payload collection); other prefixed keys are skipped. -/
def lfpGo : PyDict → PyDict → Val → PyDict × Val
  | [], payload, client => (payload, client)
  | (data_field, data_value) :: rest, payload, client =>
    if strStarts data_field fieldPfx = false then
      lfpGo rest (payload ++ [(data_field, data_value)]) client
    else if strLower data_field = strLower CLIENT_FIELD then (payload, data_value)
    else lfpGo rest payload client

/-- `InvocationRequest.load_from_payload`. -/
def InvocationRequest.load_from_payload (data : PyDict) (serialized_state : Bool := true) :
    Except PyErr InvocationRequest :=
  let r := identify data
  if r.1 = false then .error .invalidRequest
  else do
    let st ← if isNone r.2 then pure Val.none else deserialize_state r.2 serialized_state
    let pc := lfpGo data [] Val.none
    pure ⟨pc.1, pc.2, st⟩

/-! ## `ErrorResponse` -/

/-- The `ErrorResponse` dataclass. -/
structure ErrorResponse where
  error_message : Val
  schema : Val
  state : Val
  base : Val
  path : Val

/-- `ErrorResponse(...)` including `__post_init__` (same base/path check). -/
def ErrorResponse.make (error_message schema state base path : Val) :
    Except PyErr ErrorResponse :=
  if !isNone path && isNone base then .error .valueError
  else .ok ⟨error_message, schema, state, base, path⟩

/-- `ErrorResponse.get_payload`.  Note `schema` is included under Python
truthiness (`if self.schema:`), not an `is not None` check. -/
def ErrorResponse.get_payload (r : ErrorResponse) (serialized_state : Bool := true) :
    Except PyErr PyDict := do
  let p1 : PyDict := [(RESPONSE_FIELD, Val.str "error"), (ERROR_FIELD, r.error_message)]
  let p2 := if pyTruthy r.schema then p1 ++ [(SCHEMA_FIELD, r.schema)] else p1
  let p3 ←
    if isNone r.state then pure p2
    else do
      let s ← serialize_state r.state serialized_state
      pure (p2 ++ [(STATE_FIELD, Val.str s)])
  let p4 :=
    if isNone r.base then p3
    else (p3 ++ [(BASE_FIELD, r.base)]) ++ (if isNone r.path then [] else [(PATH_FIELD, r.path)])
  pure p4

/-- `ErrorResponse.get_headers`. -/
def ErrorResponse.get_headers (r : ErrorResponse) (serialized_state : Bool := true) :
    Except PyErr PyDict := do
  let p1 : PyDict := [(RESPONSE_FIELD, Val.str "error"), (ERROR_FIELD, r.error_message)]
  let p2 := if pyTruthy r.schema then p1 ++ [(SCHEMA_FIELD, Val.str (pySerialize r.schema))] else p1
  let p3 ←
    if isNone r.state then pure p2
    else do
      let s ← serialize_state r.state serialized_state
      pure (p2 ++ [(STATE_FIELD, Val.str s)])
  let p4 :=
    if isNone r.base then p3
    else (p3 ++ [(BASE_FIELD, Val.str (pySerialize r.base))])
      ++ (if isNone r.path then [] else [(PATH_FIELD, r.path)])
  pure p4

/-- Case-insensitive matches of a reserved field name among the entries. -/
def fieldMatches (f : String) (d : PyDict) : PyDict :=
  d.filter (fun kv => strLower kv.1 == strLower f)

/-- Head of the remaining input does not continue a number token (no digit,
no fraction or exponent mark). -/
def numDelim : List Char → Bool
  | [] => true
  | c :: _ => !c.isDigit && !(c = '.' ∨ c = 'e' ∨ c = 'E')

/-! # Proofs -/

/-! ## `Char` groundwork -/

/-- `Char.ofNat` inverts `toNat` on valid scalar values. -/
theorem toNat_ofNat_valid (n : Nat) (h : Nat.isValidChar n) : (Char.ofNat n).toNat = n := by
  simp [Char.ofNat, h]
  rfl

/-- Every `Char`'s code point is a valid scalar value. -/
theorem valid_toNat (c : Char) : Nat.isValidChar c.toNat := by
  have h := c.valid
  unfold Char.toNat
  rcases h with h | ⟨h1, h2⟩
  · left; exact_mod_cast h
  · right
    constructor
    · exact_mod_cast h1
    · exact_mod_cast h2

/-- `Char.ofNat` of a `Char`'s code point is that `Char`. -/
theorem ofNat_toNat_c (c : Char) : Char.ofNat c.toNat = c :=
  Char.eq_of_val_eq (UInt32.ext (toNat_ofNat_valid _ (valid_toNat c)))

/-- No `Char` encodes a surrogate. -/
theorem toNat_not_surr (c : Char) : c.toNat < 55296 ∨ 57343 < c.toNat := by
  rcases valid_toNat c with h | h
  · left; exact h
  · right; exact h.1

/-- `Char` code points are below 0x110000. -/
theorem toNat_lt_c (c : Char) : c.toNat < 1114112 := by
  rcases valid_toNat c with h | h <;> omega

/-! ## Base64 round trip -/

/-- Decoding inverts the alphabet map. -/
theorem b64Val_b64Char : ∀ n : Fin 64, b64Val (b64Char n.val) = some n.val := by decide

/-- The alphabet never emits the padding character. -/
theorem b64Char_ne_pad : ∀ n : Fin 64, b64Char n.val ≠ '=' := by decide

/-- `b64Val_b64Char` over `Nat`. -/
theorem b64Val_b64Char_n (n : Nat) (h : n < 64) : b64Val (b64Char n) = some n :=
  b64Val_b64Char ⟨n, h⟩

/-- `b64Char_ne_pad` over `Nat`. -/
theorem b64Char_ne_pad_n (n : Nat) (h : n < 64) : b64Char n ≠ '=' :=
  b64Char_ne_pad ⟨n, h⟩

/-- Base64 round trip: decoding an encoded byte string recovers it. -/
theorem b64_rt : ∀ bs : List Nat, (∀ b ∈ bs, b < 256) →
    b64decode (b64encode bs) = some bs
  | [], _ => rfl
  | [a], h => by
    have ha : a < 256 := h a (by simp)
    have e1 := b64Val_b64Char_n (a / 4) (by omega)
    have e2 := b64Val_b64Char_n (a % 4 * 16) (by omega)
    simp only [b64encode, b64decode, e1, e2]
    simp
    omega
  | [a, b], h => by
    have ha : a < 256 := h a (by simp)
    have hb : b < 256 := h b (by simp)
    have e1 := b64Val_b64Char_n (a / 4) (by omega)
    have e2 := b64Val_b64Char_n (a % 4 * 16 + b / 16) (by omega)
    have e3 := b64Val_b64Char_n (b % 16 * 4) (by omega)
    have ne3 := b64Char_ne_pad_n (b % 16 * 4) (by omega)
    simp only [b64encode, b64decode, e1, e2, e3]
    simp [ne3]
    omega
  | a :: b :: c :: rest, h => by
    have ha : a < 256 := h a (by simp)
    have hb : b < 256 := h b (by simp)
    have hc : c < 256 := h c (by simp)
    have ih := b64_rt rest (fun x hx => h x (by simp [hx]))
    have e1 := b64Val_b64Char_n (a / 4) (by omega)
    have e2 := b64Val_b64Char_n (a % 4 * 16 + b / 16) (by omega)
    have e3 := b64Val_b64Char_n (b % 16 * 4 + c / 64) (by omega)
    have e4 := b64Val_b64Char_n (c % 64) (by omega)
    have ne3 := b64Char_ne_pad_n (b % 16 * 4 + c / 64) (by omega)
    have ne4 := b64Char_ne_pad_n (c % 64) (by omega)
    simp only [b64encode, b64decode, e1, e2, e3, e4, ih]
    simp [ne3, ne4]
    omega

/-! ## Decimal digit strings -/

/-- Code point of a digit character. -/
theorem digit_toNat : ∀ k : Fin 10, (Char.ofNat (48 + k.val)).toNat = 48 + k.val := by decide

/-- Digit characters satisfy `isDigit`. -/
theorem digit_isDigit : ∀ k : Fin 10, (Char.ofNat (48 + k.val)).isDigit = true := by decide

/-- Nonzero digit characters are not `'0'`. -/
theorem digit_ne_zero : ∀ k : Fin 10, 1 ≤ k.val → Char.ofNat (48 + k.val) ≠ '0' := by decide

/-- All characters of a decimal representation are digits (with their code
points in the ASCII digit range). -/
theorem natDigitsGo_all (fuel : Nat) : ∀ n, n < fuel → ∀ c ∈ natDigitsGo fuel n,
    c.isDigit = true ∧ 48 ≤ c.toNat ∧ c.toNat ≤ 57 := by
  induction fuel with
  | zero => intro n h; omega
  | succ f ih =>
    intro n h c hc
    simp only [natDigitsGo] at hc
    by_cases h10 : n < 10
    · simp [h10] at hc
      subst hc
      have h1 := digit_toNat ⟨n, h10⟩
      have h2 := digit_isDigit ⟨n, h10⟩
      simp at h1 h2
      refine ⟨h2, by omega⟩
    · simp [h10] at hc
      rcases hc with hc | hc
      · exact ih (n / 10) (by omega) c hc
      · subst hc
        have hlt : n % 10 < 10 := Nat.mod_lt _ (by norm_num)
        have h1 := digit_toNat ⟨n % 10, hlt⟩
        have h2 := digit_isDigit ⟨n % 10, hlt⟩
        simp at h1 h2
        refine ⟨h2, by omega⟩

/-- A decimal representation is never empty. -/
theorem natDigitsGo_ne_nil (fuel n : Nat) (h : n < fuel) : natDigitsGo fuel n ≠ [] := by
  cases fuel with
  | zero => omega
  | succ f =>
    simp only [natDigitsGo]
    by_cases h10 : n < 10 <;> simp [h10]

/-- The leading digit of a positive number is not `'0'`. -/
theorem natDigitsGo_head (fuel : Nat) : ∀ n, n < fuel → 0 < n →
    ∃ c t, natDigitsGo fuel n = c :: t ∧ c ≠ '0' := by
  induction fuel with
  | zero => intro n h; omega
  | succ f ih =>
    intro n h hn
    simp only [natDigitsGo]
    by_cases h10 : n < 10
    · rw [if_pos h10]
      exact ⟨Char.ofNat (48 + n), [], rfl, digit_ne_zero ⟨n, h10⟩ (by simpa using hn)⟩
    · obtain ⟨c, t, hct, hc0⟩ := ih (n / 10) (by omega) (by omega)
      rw [if_neg h10, hct]
      exact ⟨c, t ++ [Char.ofNat (48 + n % 10)], rfl, hc0⟩

/-- Digit accumulation distributes over append. -/
theorem digitsValGo_append (xs : List Char) : ∀ (acc : Nat) (ys : List Char),
    digitsValGo acc (xs ++ ys) = digitsValGo (digitsValGo acc xs) ys := by
  induction xs with
  | nil => intro acc ys; rfl
  | cons c cs ih =>
    intro acc ys
    exact ih (acc * 10 + (c.toNat - 48)) ys

/-- Accumulating the digits of `n` over `acc` yields `acc * 10 ^ digits + n`. -/
theorem digitsValGo_natDigitsGo (fuel : Nat) : ∀ n acc, n < fuel →
    digitsValGo acc (natDigitsGo fuel n) = acc * 10 ^ (natDigitsGo fuel n).length + n := by
  induction fuel with
  | zero => intro n acc h; omega
  | succ f ih =>
    intro n acc h
    simp only [natDigitsGo]
    by_cases h10 : n < 10
    · rw [if_pos h10]
      have ht := digit_toNat ⟨n, h10⟩
      simp only [Fin.val_mk] at ht
      show acc * 10 + ((Char.ofNat (48 + n)).toNat - 48)
          = acc * 10 ^ ([Char.ofNat (48 + n)]).length + n
      rw [ht]
      simp only [List.length_singleton, pow_one]
      omega
    · rw [if_neg h10]
      rw [digitsValGo_append]
      rw [ih (n / 10) acc (by omega)]
      have hlt : n % 10 < 10 := Nat.mod_lt _ (by norm_num)
      have ht := digit_toNat ⟨n % 10, hlt⟩
      simp only [Fin.val_mk] at ht
      show (acc * 10 ^ (natDigitsGo f (n / 10)).length + n / 10) * 10
            + ((Char.ofNat (48 + n % 10)).toNat - 48)
          = acc * 10 ^ (natDigitsGo f (n / 10) ++ [Char.ofNat (48 + n % 10)]).length + n
      rw [ht]
      simp only [List.length_append, List.length_singleton, pow_succ]
      have hr : acc * (10 ^ (natDigitsGo f (n / 10)).length * 10)
          = acc * 10 ^ (natDigitsGo f (n / 10)).length * 10 := by ring
      rw [hr]
      generalize acc * 10 ^ (natDigitsGo f (n / 10)).length = A
      omega

/-- All characters of `natDigits n` are digits. -/
theorem natDigits_all (n : Nat) : ∀ c ∈ natDigits n,
    c.isDigit = true ∧ 48 ≤ c.toNat ∧ c.toNat ≤ 57 :=
  natDigitsGo_all (n + 1) n (by omega)

/-- `natDigits n` is nonempty. -/
theorem natDigits_ne_nil (n : Nat) : natDigits n ≠ [] :=
  natDigitsGo_ne_nil _ _ (by omega)

/-- Reading back the digits of `n` gives `n`. -/
theorem digitsValGo_natDigits (n : Nat) : digitsValGo 0 (natDigits n) = n := by
  have h := digitsValGo_natDigitsGo (n + 1) n 0 (by omega)
  simpa [natDigits] using h

/-- `numDelim` gives a non-digit head. -/
theorem numDelim_head (c : Char) (t : List Char) (h : numDelim (c :: t) = true) :
    c.isDigit = false ∧ c ≠ '.' ∧ c ≠ 'e' ∧ c ≠ 'E' := by
  simp [numDelim] at h
  tauto

/-- `numDelim` implies `numStop`. -/
theorem numDelim_numStop (rest : List Char) (h : numDelim rest = true) :
    numStop rest = true := by
  cases rest with
  | nil => rfl
  | cons c t =>
    obtain ⟨_, h2, h3, h4⟩ := numDelim_head c t h
    simp [numStop]
    tauto

/-- `takeDigits` splits a digit run followed by a non-digit boundary. -/
theorem takeDigits_append (xs : List Char) (hxs : ∀ c ∈ xs, c.isDigit = true)
    (rest : List Char) (hrest : numDelim rest = true) :
    takeDigits (xs ++ rest) = (xs, rest) := by
  induction xs with
  | nil =>
    simp only [List.nil_append]
    cases rest with
    | nil => rfl
    | cons c t =>
      have hc := (numDelim_head c t hrest).1
      simp [takeDigits, hc]
  | cons c cs ih =>
    have hc : c.isDigit = true := hxs c (by simp)
    have ih' := ih (fun x hx => hxs x (by simp [hx]))
    simp only [List.cons_append, takeDigits, hc, if_pos, List.append_eq, ih']

/-- Scanning the decimal representation of `n` returns `n` and the rest. -/
theorem parseNatNum_natDigits (n : Nat) (rest : List Char) (hd : numDelim rest = true) :
    parseNatNum (natDigits n ++ rest) = some (n, rest) := by
  have hstop : numStop rest = true := numDelim_numStop rest hd
  by_cases hn : n = 0
  · subst hn
    rw [show natDigits 0 = ['0'] from rfl]
    simp [parseNatNum, hstop]
  · obtain ⟨c, t, hct, hc0⟩ := natDigitsGo_head (n + 1) n (by omega) (by omega)
    have hct' : natDigits n = c :: t := hct
    have hdig : c.isDigit = true := (natDigits_all n c (by rw [hct']; simp)).1
    have htake : takeDigits ((c :: t) ++ rest) = (c :: t, rest) :=
      takeDigits_append _ (fun x hx => (natDigits_all n x (by rw [hct']; exact hx)).1) rest hd
    rw [hct']
    simp only [List.cons_append, parseNatNum]
    rw [if_neg hc0, if_pos hdig]
    rw [show c :: (t ++ rest) = (c :: t) ++ rest from rfl, htake]
    simp only [hstop, if_pos]
    rw [show (c : Char) :: t = natDigits n from hct'.symm, digitsValGo_natDigits]

/-- `natDigits` starts with a digit character. -/
theorem natDigits_head (n : Nat) : ∃ c t, natDigits n = c :: t ∧ c.isDigit = true := by
  cases h : natDigits n with
  | nil => exact absurd h (natDigits_ne_nil n)
  | cons c t =>
    refine ⟨c, t, rfl, ?_⟩
    exact (natDigits_all n c (by rw [h]; simp)).1

/-- `parseNumber` on input not starting with `'-'` scans an unsigned number. -/
theorem parseNumber_cons_ne (c : Char) (cs : List Char) (hne : c ≠ '-') :
    parseNumber (c :: cs)
      = (parseNatNum (c :: cs)).map (fun p => (Val.int (p.1 : Int), p.2)) := by
  rw [parseNumber.eq_def]
  split
  · rename_i heq
    injection heq with hh _
    exact absurd hh hne
  · rfl

/-- Scanning the decimal representation of an `int` returns it. -/
theorem parseNumber_intChars (i : Int) (rest : List Char) (hd : numDelim rest = true) :
    parseNumber (intChars i ++ rest) = some (Val.int i, rest) := by
  by_cases hi : i < 0
  · rw [intChars, if_pos hi, List.cons_append]
    rw [parseNumber]
    rw [parseNatNum_natDigits _ _ hd]
    show some (Val.int (-(i.natAbs : Int)), rest) = some (Val.int i, rest)
    rw [show (-(i.natAbs : Int)) = i from by omega]
  · rw [intChars, if_neg hi]
    obtain ⟨c, t, hct, hdig⟩ := natDigits_head i.toNat
    have hc_ne : c ≠ '-' := fun hEq => absurd (hEq ▸ hdig) (by decide)
    rw [hct, List.cons_append]
    rw [parseNumber_cons_ne c (t ++ rest) hc_ne]
    rw [show (c : Char) :: (t ++ rest) = natDigits i.toNat ++ rest from by rw [hct]; rfl]
    rw [parseNatNum_natDigits _ _ hd]
    simp
    omega

/-! ## Hex digits and string escapes -/

/-- `hexVal` inverts `hexDig`. -/
theorem hexVal_hexDig : ∀ k : Fin 16, hexVal (hexDig k.val) = some k.val := by decide

/-- `hexVal_hexDig` over `Nat`. -/
theorem hexVal_hexDig_n (n : Nat) (h : n < 16) : hexVal (hexDig n) = some n :=
  hexVal_hexDig ⟨n, h⟩

/-- `hexVal4` inverts the four digits emitted for a number below 0x10000. -/
theorem hexVal4_hex4 (n : Nat) (h : n < 65536) :
    hexVal4 (hexDig (n / 4096 % 16)) (hexDig (n / 256 % 16)) (hexDig (n / 16 % 16))
      (hexDig (n % 16)) = some n := by
  unfold hexVal4
  rw [hexVal_hexDig_n _ (Nat.mod_lt _ (by norm_num)),
    hexVal_hexDig_n _ (Nat.mod_lt _ (by norm_num)),
    hexVal_hexDig_n _ (Nat.mod_lt _ (by norm_num)),
    hexVal_hexDig_n _ (Nat.mod_lt _ (by norm_num))]
  show some (n / 4096 % 16 * 4096 + n / 256 % 16 * 256 + n / 16 % 16 * 16 + n % 16) = some n
  exact congrArg some (by omega)

/-- `\uXXXX` parsing inverts `hex4` for a non-surrogate code point. -/
theorem parseHexEsc_bmp (n : Nat) (h16 : n < 65536)
    (hns1 : ¬(55296 ≤ n ∧ n ≤ 56319)) (hns2 : ¬(56320 ≤ n ∧ n ≤ 57343))
    (tail : List Char) (cs rest : List Char) (ih : parseStrBody tail = some (cs, rest)) :
    parseHexEsc (hex4 n ++ tail) = some (Char.ofNat n :: cs, rest) := by
  simp only [hex4, List.cons_append, List.nil_append]
  rw [parseHexEsc, hexVal4_hex4 n h16]
  simp [hns1, hns2, ih]

/-- `\uXXXX\uXXXX` parsing combines a surrogate pair emitted by `hex4`. -/
theorem parseHexEsc_surr (n m : Nat)
    (hn : 55296 ≤ n ∧ n ≤ 56319) (hm : 56320 ≤ m ∧ m ≤ 57343)
    (tail : List Char) (cs rest : List Char) (ih : parseStrBody tail = some (cs, rest)) :
    parseHexEsc (hex4 n ++ ('\\' :: 'u' :: (hex4 m ++ tail)))
      = some (Char.ofNat (65536 + (n - 55296) * 1024 + (m - 56320)) :: cs, rest) := by
  have hn16 : n < 65536 := by omega
  have hm16 : m < 65536 := by omega
  simp only [hex4, List.cons_append, List.nil_append]
  rw [parseHexEsc, hexVal4_hex4 n hn16]
  simp only [if_pos hn]
  rw [parseLowSurr]
  rw [if_pos (⟨rfl, rfl⟩ : ('\\' : Char) = '\\' ∧ ('u' : Char) = 'u')]
  rw [parseLowSurrHex, hexVal4_hex4 m hm16]
  simp [hm, ih]

/-- A full `\uXXXX\uXXXX` surrogate-pair escape scans to the combined
scalar value. -/
theorem parseStr_surrPair (n m : Nat)
    (hnr : 55296 ≤ n ∧ n ≤ 56319) (hmr : 56320 ≤ m ∧ m ≤ 57343)
    (tail cs rest : List Char) (ih : parseStrBody tail = some (cs, rest)) :
    parseStrBody ((('\\' :: 'u' :: hex4 n) ++ ('\\' :: 'u' :: hex4 m)) ++ tail)
      = some (Char.ofNat (65536 + (n - 55296) * 1024 + (m - 56320)) :: cs, rest) := by
  simp only [List.cons_append, List.append_assoc]
  rw [show parseStrBody ('\\' :: 'u' :: (hex4 n ++ ('\\' :: 'u' :: (hex4 m ++ tail))))
      = parseHexEsc (hex4 n ++ ('\\' :: 'u' :: (hex4 m ++ tail)))
      from by simp [parseStrBody, parseEsc]]
  exact parseHexEsc_surr n m hnr hmr tail cs rest ih

/-- A `\uXXXX` escape of a BMP scalar scans to that character. -/
theorem parseStr_bmp (n : Nat) (h16 : n < 65536)
    (hns1 : ¬(55296 ≤ n ∧ n ≤ 56319)) (hns2 : ¬(56320 ≤ n ∧ n ≤ 57343))
    (tail cs rest : List Char) (ih : parseStrBody tail = some (cs, rest)) :
    parseStrBody (('\\' :: 'u' :: hex4 n) ++ tail) = some (Char.ofNat n :: cs, rest) := by
  simp only [List.cons_append, List.append_assoc]
  rw [show parseStrBody ('\\' :: 'u' :: (hex4 n ++ tail))
      = parseHexEsc (hex4 n ++ tail)
      from by simp [parseStrBody, parseEsc]]
  exact parseHexEsc_bmp n h16 hns1 hns2 tail cs rest ih

/-- The JSON string scanner inverts `escList`, consuming the closing quote. -/
theorem parseStrBody_escape (s : List Char) : ∀ rest : List Char,
    parseStrBody (escList s ++ ('"' :: rest)) = some (s, rest) := by
  induction s with
  | nil => intro rest; simp [escList, parseStrBody]
  | cons c cs ihs =>
    intro rest
    have ih := ihs rest
    rw [show escList (c :: cs) = escapeChar c ++ escList cs from rfl, List.append_assoc]
    by_cases h1 : c = '"'
    · subst h1
      rw [show escapeChar '"' = ['\\', '"'] from rfl]
      simp [parseStrBody, parseEsc, escTable, ih]
    · by_cases h2 : c = '\\'
      · subst h2
        rw [show escapeChar '\\' = ['\\', '\\'] from rfl]
        simp [parseStrBody, parseEsc, escTable, ih]
      · by_cases h3 : c = Char.ofNat 8
        · subst h3
          rw [show escapeChar (Char.ofNat 8) = ['\\', 'b'] from rfl]
          simp [parseStrBody, parseEsc, escTable, ih]
        · by_cases h4 : c = Char.ofNat 12
          · subst h4
            rw [show escapeChar (Char.ofNat 12) = ['\\', 'f'] from rfl]
            simp [parseStrBody, parseEsc, escTable, ih]
          · by_cases h5 : c = '\n'
            · subst h5
              rw [show escapeChar '\n' = ['\\', 'n'] from rfl]
              simp [parseStrBody, parseEsc, escTable, ih]
            · by_cases h6 : c = Char.ofNat 13
              · subst h6
                rw [show escapeChar (Char.ofNat 13) = ['\\', 'r'] from rfl]
                simp [parseStrBody, parseEsc, escTable, ih]
              · by_cases h7 : c = '\t'
                · subst h7
                  rw [show escapeChar '\t' = ['\\', 't'] from rfl]
                  simp [parseStrBody, parseEsc, escTable, ih]
                · rw [escapeChar, if_neg h1, if_neg h2, if_neg h3, if_neg h4, if_neg h5,
                    if_neg h6, if_neg h7]
                  by_cases h8 : 32 ≤ c.toNat ∧ c.toNat ≤ 126
                  · rw [if_pos h8]
                    have h32 : ¬(c.toNat < 32) := by omega
                    simp [parseStrBody, h1, h2, h32, ih]
                  · rw [if_neg h8]
                    by_cases h9 : c.toNat < 65536
                    · rw [if_pos h9]
                      have hns := toNat_not_surr c
                      generalize hn : c.toNat = n at h9 hns
                      have hns1 : ¬(55296 ≤ n ∧ n ≤ 56319) := by omega
                      have hns2 : ¬(56320 ≤ n ∧ n ≤ 57343) := by omega
                      rw [parseStr_bmp n h9 hns1 hns2 _ cs rest ih]
                      rw [hn.symm, ofNat_toNat_c c]
                    · rw [if_neg h9]
                      have hlt := toNat_lt_c c
                      have hdivb : (c.toNat - 65536) / 1024 ≤ 1023 := by omega
                      have hmodb : (c.toNat - 65536) % 1024 ≤ 1023 := by omega
                      generalize hn : 55296 + (c.toNat - 65536) / 1024 = n
                      generalize hm : 56320 + (c.toNat - 65536) % 1024 = m
                      have hhir : 55296 ≤ n ∧ n ≤ 56319 := by omega
                      have hlor : 56320 ≤ m ∧ m ≤ 57343 := by omega
                      rw [parseStr_surrPair n m hhir hlor _ cs rest ih]
                      rw [show 65536 + (n - 55296) * 1024 + (m - 56320) = c.toNat
                          from by omega]
                      rw [ofNat_toNat_c c]

/-! ## Heads of printed values, whitespace, number delimiters -/

/-- Distinguish characters by code point. -/
theorem char_ne_of_toNat (c d : Char) (h : c.toNat ≠ d.toNat) : c ≠ d :=
  fun e => h (congrArg Char.toNat e)

/-- A digit character is not whitespace and not a structural delimiter. -/
theorem digit_char_facts (c : Char) (h48 : 48 ≤ c.toNat) (h57 : c.toNat ≤ 57) :
    isJsonWs c = false ∧ c ≠ ']' ∧ c ≠ '"' ∧ c ≠ '[' ∧ c ≠ Char.ofNat 123
      ∧ c ≠ 'n' ∧ c ≠ 't' ∧ c ≠ 'f' := by
  have h1 : c ≠ ' ' := char_ne_of_toNat _ _ (by simp; omega)
  have h2 : c ≠ '\t' := char_ne_of_toNat _ _ (by simp; omega)
  have h3 : c ≠ '\n' := char_ne_of_toNat _ _ (by simp; omega)
  have h4 : c ≠ Char.ofNat 13 := char_ne_of_toNat _ _ (by simp; omega)
  refine ⟨by simp [isJsonWs, h1, h2, h3, h4], ?_, ?_, ?_, ?_, ?_, ?_, ?_⟩
    <;> exact char_ne_of_toNat _ _ (by simp; omega)

/-- `skipWs` is the identity on input with a non-whitespace head. -/
theorem skipWs_cons (c : Char) (t : List Char) (h : isJsonWs c = false) :
    skipWs (c :: t) = c :: t := by simp [skipWs, h]

/-- `skipWs` drops a single leading space. -/
theorem skipWs_space (t : List Char) : skipWs (' ' :: t) = skipWs t := by
  simp [skipWs, isJsonWs]

/-- Every printed value starts with a non-whitespace character that is not a
closing bracket. -/
theorem dumpsVal_head (v : Val) : ∃ c t, dumpsVal v = c :: t
    ∧ isJsonWs c = false ∧ c ≠ ']' := by
  cases v with
  | none => exact ⟨'n', _, rfl, by decide, by decide⟩
  | bool b =>
    cases b with
    | false => exact ⟨'f', _, rfl, by decide, by decide⟩
    | true => exact ⟨'t', _, rfl, by decide, by decide⟩
  | int i =>
    rw [show dumpsVal (Val.int i) = intChars i from rfl, intChars]
    by_cases hi : i < 0
    · rw [if_pos hi]
      exact ⟨'-', _, rfl, by decide, by decide⟩
    · rw [if_neg hi]
      obtain ⟨c, t, hct, hdig⟩ := natDigits_head i.toNat
      obtain ⟨_, h48, h57⟩ := natDigits_all i.toNat c (by rw [hct]; simp)
      obtain ⟨hws, hrb, _⟩ := digit_char_facts c h48 h57
      exact ⟨c, t, hct, hws, hrb⟩
  | str s => exact ⟨'"', _, rfl, by decide, by decide⟩
  | list xs => exact ⟨'[', _, rfl, by decide, by decide⟩
  | dict es => exact ⟨Char.ofNat 123, _, rfl, by decide, by decide⟩

/-- `skipWs` is the identity on a printed value. -/
theorem skipWs_dumps (v : Val) (r : List Char) :
    skipWs (dumpsVal v ++ r) = dumpsVal v ++ r := by
  obtain ⟨c, t, hct, hws, _⟩ := dumpsVal_head v
  rw [hct, List.cons_append, skipWs_cons _ _ hws]

/-- `skipWs` is the identity on a printed array body. -/
theorem skipWs_dumpsArr (xs : List Val) (r : List Char) :
    skipWs (dumpsArr xs ++ r) = dumpsArr xs ++ r := by
  cases xs with
  | nil => rw [show dumpsArr [] = [']'] from rfl]; exact skipWs_cons _ _ (by decide)
  | cons x xs =>
    rw [show dumpsArr (x :: xs) = dumpsVal x ++ dumpsArrRest xs from rfl, List.append_assoc]
    exact skipWs_dumps x _

/-- `skipWs` is the identity on a printed array tail. -/
theorem skipWs_dumpsArrRest (xs : List Val) (r : List Char) :
    skipWs (dumpsArrRest xs ++ r) = dumpsArrRest xs ++ r := by
  cases xs with
  | nil => rw [show dumpsArrRest [] = [']'] from rfl]; exact skipWs_cons _ _ (by decide)
  | cons x xs =>
    rw [show dumpsArrRest (x :: xs) = ',' :: ' ' :: (dumpsVal x ++ dumpsArrRest xs) from rfl]
    exact skipWs_cons _ _ (by decide)

/-- `skipWs` is the identity on a printed object body. -/
theorem skipWs_dumpsObj (es : List (String × Val)) (r : List Char) :
    skipWs (dumpsObj es ++ r) = dumpsObj es ++ r := by
  cases es with
  | nil => rw [show dumpsObj [] = [Char.ofNat 125] from rfl]; exact skipWs_cons _ _ (by decide)
  | cons e es =>
    obtain ⟨k, v⟩ := e
    rw [show dumpsObj ((k, v) :: es)
        = '"' :: (escList k.data ++ '"' :: ':' :: ' ' :: (dumpsVal v ++ dumpsObjRest es))
        from rfl]
    exact skipWs_cons _ _ (by decide)

/-- `skipWs` is the identity on a printed object tail. -/
theorem skipWs_dumpsObjRest (es : List (String × Val)) (r : List Char) :
    skipWs (dumpsObjRest es ++ r) = dumpsObjRest es ++ r := by
  cases es with
  | nil =>
    rw [show dumpsObjRest [] = [Char.ofNat 125] from rfl]
    exact skipWs_cons _ _ (by decide)
  | cons e es =>
    obtain ⟨k, v⟩ := e
    rw [show dumpsObjRest ((k, v) :: es)
        = ',' :: ' ' :: '"' :: (escList k.data ++ '"' :: ':' :: ' ' :: (dumpsVal v ++ dumpsObjRest es))
        from rfl]
    exact skipWs_cons _ _ (by decide)

/-- A printed array tail starts with `,` or `]`, ending any number token. -/
theorem numDelim_arrRest (xs : List Val) (rest : List Char) :
    numDelim (dumpsArrRest xs ++ rest) = true := by
  cases xs with
  | nil => rfl
  | cons x xs => rfl

/-- A printed object tail starts with `,` or a closing brace. -/
theorem numDelim_objRest (es : List (String × Val)) (rest : List Char) :
    numDelim (dumpsObjRest es ++ rest) = true := by
  cases es with
  | nil => rfl
  | cons e es => obtain ⟨k, v⟩ := e; rfl

/-! ## Duplicate-free keys and `pyDictSet` -/

/-- `strIn` distributes over append. -/
theorem strIn_append (x : String) (P Q : List String) :
    strIn x (P ++ Q) = (strIn x P || strIn x Q) := by
  induction P with
  | nil => simp [strIn]
  | cons p P ih => simp [strIn, ih, Bool.or_assoc]

/-- In a duplicate-free list, an element of the tail part is absent from the
front part. -/
theorem dupFree_split (A : List String) (k : String) (B : List String)
    (h : dupFree (A ++ k :: B) = true) : strIn k A = false := by
  induction A with
  | nil => rfl
  | cons a A ih =>
    simp only [List.cons_append, dupFree, Bool.and_eq_true, Bool.not_eq_true',
      List.append_eq] at h
    obtain ⟨h1, h2⟩ := h
    rw [strIn_append] at h1
    simp only [strIn, Bool.or_eq_false_iff] at h1 ⊢
    constructor
    · have hh : (a == k) = false := h1.2.1
      simp only [beq_eq_false_iff_ne] at hh ⊢
      exact fun e => hh e.symm
    · exact ih h2

/-- Inserting a fresh key appends the entry. -/
theorem pyDictSet_fresh (acc : PyDict) (k : String) (v : Val)
    (h : strIn k (acc.map Prod.fst) = false) : pyDictSet acc k v = acc ++ [(k, v)] := by
  induction acc with
  | nil => rfl
  | cons e es ih =>
    obtain ⟨k2, v2⟩ := e
    simp only [List.map_cons, strIn, Bool.or_eq_false_iff] at h
    have hne : k2 ≠ k := by
      have := h.1
      simp only [beq_eq_false_iff_ne] at this
      exact fun e => this e.symm
    simp [pyDictSet, hne, ih h.2]

/-! ## One-step scanning of printed nodes -/

/-- Rebuilding a string from its character data is the identity. -/
theorem string_mk_data (s : String) : String.mk s.data = s := rfl

/-- Scanning printed `null`. -/
theorem parseVal_null (f : Nat) (rest : List Char) :
    parseVal (f + 1) (dumpsVal Val.none ++ rest) = some (Val.none, rest) := by
  rw [show dumpsVal Val.none ++ rest = 'n' :: 'u' :: 'l' :: 'l' :: rest from rfl]
  simp [parseVal, dropLit]

/-- Scanning a printed boolean. -/
theorem parseVal_bool (f : Nat) (b : Bool) (rest : List Char) :
    parseVal (f + 1) (dumpsVal (Val.bool b) ++ rest) = some (Val.bool b, rest) := by
  cases b with
  | false =>
    rw [show dumpsVal (Val.bool false) ++ rest = 'f' :: 'a' :: 'l' :: 's' :: 'e' :: rest from rfl]
    simp [parseVal, dropLit]
  | true =>
    rw [show dumpsVal (Val.bool true) ++ rest = 't' :: 'r' :: 'u' :: 'e' :: rest from rfl]
    simp [parseVal, dropLit]

/-- Scanning a printed integer. -/
theorem parseVal_int (f : Nat) (i : Int) (rest : List Char) (hd : numDelim rest = true) :
    parseVal (f + 1) (dumpsVal (Val.int i) ++ rest) = some (Val.int i, rest) := by
  rw [show dumpsVal (Val.int i) = intChars i from rfl]
  have hnum := parseNumber_intChars i rest hd
  rw [intChars] at hnum ⊢
  by_cases hi : i < 0
  · rw [if_pos hi] at hnum ⊢
    rw [List.cons_append] at hnum ⊢
    simp only [parseVal]
    rw [if_neg (by decide : ¬('-' : Char) = '"'), if_neg (by decide : ¬('-' : Char) = '['),
      if_neg (by decide : ¬('-' : Char) = Char.ofNat 123),
      if_neg (by decide : ¬('-' : Char) = 'n'), if_neg (by decide : ¬('-' : Char) = 't'),
      if_neg (by decide : ¬('-' : Char) = 'f')]
    simp only [true_or, if_true]
    exact hnum
  · rw [if_neg hi] at hnum ⊢
    obtain ⟨c, t, hct, hdig⟩ := natDigits_head i.toNat
    obtain ⟨_, h48, h57⟩ := natDigits_all i.toNat c (by rw [hct]; simp)
    obtain ⟨_, _, hq, hlb, hbr, hn, ht, hf⟩ := digit_char_facts c h48 h57
    rw [hct, List.cons_append] at hnum ⊢
    simp only [parseVal]
    rw [if_neg hq, if_neg hlb, if_neg hbr, if_neg hn, if_neg ht, if_neg hf,
      if_pos (Or.inr hdig)]
    exact hnum

/-- Scanning a printed string. -/
theorem parseVal_str (f : Nat) (s : String) (rest : List Char) :
    parseVal (f + 1) (dumpsVal (Val.str s) ++ rest) = some (Val.str s, rest) := by
  rw [show dumpsVal (Val.str s) ++ rest = '"' :: (escList s.data ++ ('"' :: rest)) from by
    rw [show dumpsVal (Val.str s) = '"' :: (escList s.data ++ ['"']) from rfl]
    simp]
  simp [parseVal, parseStrBody_escape, string_mk_data]

/-- Scanning a printed empty array. -/
theorem parseArr_nil (f : Nat) (rest : List Char) :
    parseArr (f + 1) (dumpsArr [] ++ rest) = some (Val.list [], rest) := by
  rw [show dumpsArr [] ++ rest = ']' :: rest from rfl]
  simp [parseArr]

/-- Scanning a printed nonempty array body, given its parts scan. -/
theorem parseArr_step (f : Nat) (x : Val) (xs : List Val) (rest : List Char)
    (hx : parseVal f (dumpsVal x ++ (dumpsArrRest xs ++ rest))
      = some (x, dumpsArrRest xs ++ rest))
    (hxs : parseArrRest f (dumpsArrRest xs ++ rest) = some (xs, rest)) :
    parseArr (f + 1) (dumpsArr (x :: xs) ++ rest) = some (Val.list (x :: xs), rest) := by
  obtain ⟨c, t, hct, hws, hrb⟩ := dumpsVal_head x
  rw [show dumpsArr (x :: xs) ++ rest = dumpsVal x ++ (dumpsArrRest xs ++ rest) from by
    rw [show dumpsArr (x :: xs) = dumpsVal x ++ dumpsArrRest xs from rfl]
    simp]
  rw [hct, List.cons_append] at hx ⊢
  simp only [parseArr]
  rw [if_neg hrb, hx]
  simp only [skipWs_dumpsArrRest, hxs]

/-- Scanning the end of a printed array tail. -/
theorem parseArrRest_nil (f : Nat) (rest : List Char) :
    parseArrRest (f + 1) (dumpsArrRest [] ++ rest) = some ([], rest) := by
  rw [show dumpsArrRest [] ++ rest = ']' :: rest from rfl]
  simp [parseArrRest]

/-- Scanning one more printed array item, given its parts scan. -/
theorem parseArrRest_step (f : Nat) (x : Val) (xs : List Val) (rest : List Char)
    (hx : parseVal f (dumpsVal x ++ (dumpsArrRest xs ++ rest))
      = some (x, dumpsArrRest xs ++ rest))
    (hxs : parseArrRest f (dumpsArrRest xs ++ rest) = some (xs, rest)) :
    parseArrRest (f + 1) (dumpsArrRest (x :: xs) ++ rest) = some (x :: xs, rest) := by
  rw [show dumpsArrRest (x :: xs) ++ rest
      = ',' :: ' ' :: ((dumpsVal x ++ dumpsArrRest xs) ++ rest) from rfl]
  simp only [parseArrRest]
  rw [if_neg (by decide : ¬(',' : Char) = ']')]
  simp only [if_true]
  rw [skipWs_space, List.append_assoc, skipWs_dumps, hx]
  simp only [skipWs_dumpsArrRest, hxs]

/-- Scanning a printed empty object. -/
theorem parseObj_nil (f : Nat) (rest : List Char) :
    parseObj (f + 1) (dumpsObj [] ++ rest) = some (Val.dict [], rest) := by
  rw [show dumpsObj [] ++ rest = Char.ofNat 125 :: rest from rfl]
  simp [parseObj]

/-- Scanning a printed nonempty object body, given its parts scan. -/
theorem parseObj_step (f : Nat) (k : String) (v : Val) (es : List (String × Val))
    (rest : List Char) (w : Val)
    (hv : parseVal f (dumpsVal v ++ (dumpsObjRest es ++ rest))
      = some (v, dumpsObjRest es ++ rest))
    (hrest : parseObjRest f [(k, v)] (dumpsObjRest es ++ rest) = some (w, rest)) :
    parseObj (f + 1) (dumpsObj ((k, v) :: es) ++ rest) = some (w, rest) := by
  rw [show dumpsObj ((k, v) :: es) ++ rest
      = '"' :: (escList k.data
          ++ ('"' :: ':' :: ' ' :: (dumpsVal v ++ (dumpsObjRest es ++ rest)))) from by
    rw [show dumpsObj ((k, v) :: es)
        = '"' :: (escList k.data ++ '"' :: ':' :: ' ' :: (dumpsVal v ++ dumpsObjRest es))
        from rfl]
    simp]
  have hcolon : ∀ X : List Char, skipWs (':' :: X) = ':' :: X :=
    fun X => skipWs_cons _ _ (by decide)
  simp only [parseObj]
  rw [if_neg (by decide : ¬('"' : Char) = Char.ofNat 125)]
  simp only [if_true, parseStrBody_escape, hcolon, skipWs_space, skipWs_dumps,
    string_mk_data, hv, skipWs_dumpsObjRest]
  rw [show pyDictSet [] k v = [(k, v)] from rfl, hrest]

/-- Scanning the end of a printed object tail. -/
theorem parseObjRest_nil (f : Nat) (acc : PyDict) (rest : List Char) :
    parseObjRest (f + 1) acc (dumpsObjRest [] ++ rest) = some (Val.dict acc, rest) := by
  rw [show dumpsObjRest [] ++ rest = Char.ofNat 125 :: rest from rfl]
  simp [parseObjRest]

/-- Scanning one more printed object entry, given its parts scan. -/
theorem parseObjRest_step (f : Nat) (acc : PyDict) (k : String) (v : Val)
    (es : List (String × Val)) (rest : List Char) (w : Val)
    (hv : parseVal f (dumpsVal v ++ (dumpsObjRest es ++ rest))
      = some (v, dumpsObjRest es ++ rest))
    (hrest : parseObjRest f (pyDictSet acc k v) (dumpsObjRest es ++ rest) = some (w, rest)) :
    parseObjRest (f + 1) acc (dumpsObjRest ((k, v) :: es) ++ rest) = some (w, rest) := by
  rw [show dumpsObjRest ((k, v) :: es) ++ rest
      = ',' :: ' ' :: ('"' :: (escList k.data
          ++ ('"' :: ':' :: ' ' :: (dumpsVal v ++ (dumpsObjRest es ++ rest))))) from by
    rw [show dumpsObjRest ((k, v) :: es)
        = ',' :: ' ' :: '"' :: (escList k.data
            ++ '"' :: ':' :: ' ' :: (dumpsVal v ++ dumpsObjRest es)) from rfl]
    simp]
  have hcolon : ∀ X : List Char, skipWs (':' :: X) = ':' :: X :=
    fun X => skipWs_cons _ _ (by decide)
  have hquote : ∀ X : List Char, skipWs ('"' :: X) = '"' :: X :=
    fun X => skipWs_cons _ _ (by decide)
  simp only [parseObjRest]
  rw [if_neg (by decide : ¬(',' : Char) = Char.ofNat 125)]
  simp only [if_true, skipWs_space, hquote, parseStrBody_escape, hcolon, skipWs_dumps,
    string_mk_data, hv, skipWs_dumpsObjRest, hrest]

/-! ## The printer/parser round trip -/

mutual

/-- Scanning a printed value returns it, leaving the rest untouched. -/
theorem roundV : ∀ (v : Val) (fuel : Nat) (rest : List Char),
    needV v ≤ fuel → wfVal v = true → numDelim rest = true →
    parseVal fuel (dumpsVal v ++ rest) = some (v, rest)
  | Val.none, fuel, rest, hf, _, _ => by
    cases fuel with
    | zero => simp [needV] at hf
    | succ f => exact parseVal_null f rest
  | Val.bool b, fuel, rest, hf, _, _ => by
    cases fuel with
    | zero => simp [needV] at hf
    | succ f => exact parseVal_bool f b rest
  | Val.int i, fuel, rest, hf, _, hd => by
    cases fuel with
    | zero => simp [needV] at hf
    | succ f => exact parseVal_int f i rest hd
  | Val.str s, fuel, rest, hf, _, _ => by
    cases fuel with
    | zero => simp [needV] at hf
    | succ f => exact parseVal_str f s rest
  | Val.list xs, fuel, rest, hf, hw, hd => by
    cases fuel with
    | zero => simp [needV] at hf
    | succ f =>
      have hfa : needArr xs ≤ f := by simp [needV] at hf; omega
      have harr := roundArr xs f rest hfa hw hd
      rw [show dumpsVal (Val.list xs) ++ rest = '[' :: (dumpsArr xs ++ rest) from rfl]
      simp only [parseVal]
      rw [if_neg (by decide : ¬('[' : Char) = '"')]
      simp only [if_true]
      rw [skipWs_dumpsArr, harr]
  | Val.dict es, fuel, rest, hf, hw, hd => by
    cases fuel with
    | zero => simp [needV] at hf
    | succ f =>
      have hfo : needObj es ≤ f := by simp [needV] at hf; omega
      have hdup : dupFree (es.map Prod.fst) = true := by
        simp [wfVal] at hw; exact hw.1
      have hwv : wfObjVals es = true := by
        simp [wfVal] at hw; exact hw.2
      have hobj := roundObj es f rest hfo hdup hwv hd
      rw [show dumpsVal (Val.dict es) ++ rest = Char.ofNat 123 :: (dumpsObj es ++ rest)
          from rfl]
      simp only [parseVal]
      rw [if_neg (by decide : ¬(Char.ofNat 123) = '"'),
        if_neg (by decide : ¬(Char.ofNat 123) = '[')]
      simp only [if_true]
      rw [skipWs_dumpsObj, hobj]

termination_by v _ _ _ _ _ => sizeOf v
decreasing_by all_goals (simp_wf <;> omega)

/-- Scanning a printed array body returns the list. -/
theorem roundArr : ∀ (xs : List Val) (fuel : Nat) (rest : List Char),
    needArr xs ≤ fuel → wfList xs = true → numDelim rest = true →
    parseArr fuel (dumpsArr xs ++ rest) = some (Val.list xs, rest)
  | [], fuel, rest, hf, _, _ => by
    cases fuel with
    | zero => simp [needArr] at hf
    | succ f => exact parseArr_nil f rest
  | x :: xs, fuel, rest, hf, hw, hd => by
    cases fuel with
    | zero => simp [needArr] at hf
    | succ f =>
      have hmax : Nat.max (needV x) (needArrRest xs) ≤ f := by
        simp [needArr] at hf; omega
      have h1 : needV x ≤ f := le_trans (Nat.le_max_left _ _) hmax
      have h2 : needArrRest xs ≤ f := le_trans (Nat.le_max_right _ _) hmax
      have hw1 : wfVal x = true := by simp [wfList] at hw; exact hw.1
      have hw2 : wfList xs = true := by simp [wfList] at hw; exact hw.2
      exact parseArr_step f x xs rest
        (roundV x f (dumpsArrRest xs ++ rest) h1 hw1 (numDelim_arrRest xs rest))
        (roundArrRest xs f rest h2 hw2 hd)

termination_by xs _ _ _ _ _ => sizeOf xs
decreasing_by all_goals (simp_wf <;> omega)

/-- Scanning a printed array tail returns the remaining items. -/
theorem roundArrRest : ∀ (xs : List Val) (fuel : Nat) (rest : List Char),
    needArrRest xs ≤ fuel → wfList xs = true → numDelim rest = true →
    parseArrRest fuel (dumpsArrRest xs ++ rest) = some (xs, rest)
  | [], fuel, rest, hf, _, _ => by
    cases fuel with
    | zero => simp [needArrRest] at hf
    | succ f => exact parseArrRest_nil f rest
  | x :: xs, fuel, rest, hf, hw, hd => by
    cases fuel with
    | zero => simp [needArrRest] at hf
    | succ f =>
      have hmax : Nat.max (needV x) (needArrRest xs) ≤ f := by
        simp [needArrRest] at hf; omega
      have h1 : needV x ≤ f := le_trans (Nat.le_max_left _ _) hmax
      have h2 : needArrRest xs ≤ f := le_trans (Nat.le_max_right _ _) hmax
      have hw1 : wfVal x = true := by simp [wfList] at hw; exact hw.1
      have hw2 : wfList xs = true := by simp [wfList] at hw; exact hw.2
      exact parseArrRest_step f x xs rest
        (roundV x f (dumpsArrRest xs ++ rest) h1 hw1 (numDelim_arrRest xs rest))
        (roundArrRest xs f rest h2 hw2 hd)

termination_by xs _ _ _ _ _ => sizeOf xs
decreasing_by all_goals (simp_wf <;> omega)

/-- Scanning a printed object body returns the entries. -/
theorem roundObj : ∀ (es : List (String × Val)) (fuel : Nat) (rest : List Char),
    needObj es ≤ fuel → dupFree (es.map Prod.fst) = true → wfObjVals es = true →
    numDelim rest = true →
    parseObj fuel (dumpsObj es ++ rest) = some (Val.dict es, rest)
  | [], fuel, rest, hf, _, _, _ => by
    cases fuel with
    | zero => simp [needObj] at hf
    | succ f => exact parseObj_nil f rest
  | (k, v) :: es, fuel, rest, hf, hdup, hwv, hd => by
    cases fuel with
    | zero => simp [needObj] at hf
    | succ f =>
      have hmax : Nat.max (needV v) (needObjRest es) ≤ f := by
        simp [needObj] at hf; omega
      have h1 : needV v ≤ f := le_trans (Nat.le_max_left _ _) hmax
      have h2 : needObjRest es ≤ f := le_trans (Nat.le_max_right _ _) hmax
      have hw1 : wfVal v = true := by simp [wfObjVals] at hwv; exact hwv.1
      have hw2 : wfObjVals es = true := by simp [wfObjVals] at hwv; exact hwv.2
      have hdup' : dupFree (([(k, v)] : PyDict).map Prod.fst ++ es.map Prod.fst) = true := by
        simpa using hdup
      have hobj := roundObjRest es f [(k, v)] rest h2 hw2 hdup' hd
      exact parseObj_step f k v es rest (Val.dict ([(k, v)] ++ es))
        (roundV v f (dumpsObjRest es ++ rest) h1 hw1 (numDelim_objRest es rest)) hobj

termination_by es _ _ _ _ _ _ => sizeOf es
decreasing_by all_goals (simp_wf <;> omega)

/-- Scanning a printed object tail extends the accumulated entries. -/
theorem roundObjRest : ∀ (es : List (String × Val)) (fuel : Nat) (acc : PyDict)
    (rest : List Char),
    needObjRest es ≤ fuel → wfObjVals es = true →
    dupFree (acc.map Prod.fst ++ es.map Prod.fst) = true → numDelim rest = true →
    parseObjRest fuel acc (dumpsObjRest es ++ rest) = some (Val.dict (acc ++ es), rest)
  | [], fuel, acc, rest, hf, _, _, _ => by
    cases fuel with
    | zero => simp [needObjRest] at hf
    | succ f =>
      have h := parseObjRest_nil f acc rest
      rw [List.append_nil]
      exact h
  | (k, v) :: es, fuel, acc, rest, hf, hwv, hdup, hd => by
    cases fuel with
    | zero => simp [needObjRest] at hf
    | succ f =>
      have hmax : Nat.max (needV v) (needObjRest es) ≤ f := by
        simp [needObjRest] at hf; omega
      have h1 : needV v ≤ f := le_trans (Nat.le_max_left _ _) hmax
      have h2 : needObjRest es ≤ f := le_trans (Nat.le_max_right _ _) hmax
      have hw1 : wfVal v = true := by simp [wfObjVals] at hwv; exact hwv.1
      have hw2 : wfObjVals es = true := by simp [wfObjVals] at hwv; exact hwv.2
      have hdupA : dupFree (acc.map Prod.fst ++ (k :: es.map Prod.fst)) = true := by
        simpa using hdup
      have hfresh : strIn k (acc.map Prod.fst) = false := dupFree_split _ k _ hdupA
      have hdup' : dupFree ((acc ++ [(k, v)]).map Prod.fst ++ es.map Prod.fst) = true := by
        rw [List.map_append]
        simpa [List.append_assoc] using hdupA
      have hobj := roundObjRest es f (acc ++ [(k, v)]) rest h2 hw2 hdup' hd
      have hobj' : parseObjRest f (pyDictSet acc k v) (dumpsObjRest es ++ rest)
          = some (Val.dict ((acc ++ [(k, v)]) ++ es), rest) := by
        rw [pyDictSet_fresh acc k v hfresh]
        exact hobj
      have hstep := parseObjRest_step f acc k v es rest
        (Val.dict ((acc ++ [(k, v)]) ++ es))
        (roundV v f (dumpsObjRest es ++ rest) h1 hw1 (numDelim_objRest es rest)) hobj'
      rw [hstep]
      simp [List.append_assoc]

termination_by es _ _ _ _ _ _ _ => sizeOf es
decreasing_by all_goals (simp_wf <;> omega)

end

/-! ## Fuel bounds: printed length is enough fuel -/

/-- A printed value is nonempty. -/
theorem dumpsVal_len_pos (v : Val) : 1 ≤ (dumpsVal v).length := by
  obtain ⟨c, t, hct, _, _⟩ := dumpsVal_head v
  rw [hct]
  simp

/-- A printed array tail is nonempty. -/
theorem dumpsArrRest_len_pos (xs : List Val) : 1 ≤ (dumpsArrRest xs).length := by
  cases xs with
  | nil => simp [dumpsArrRest]
  | cons x xs => simp [dumpsArrRest]

/-- A printed object tail is nonempty. -/
theorem dumpsObjRest_len_pos (es : List (String × Val)) :
    1 ≤ (dumpsObjRest es).length := by
  cases es with
  | nil => simp [dumpsObjRest]
  | cons e es => obtain ⟨k, v⟩ := e; simp [dumpsObjRest]

mutual

/-- The fuel needed for a value is at most its printed length. -/
theorem needV_le_len : ∀ v : Val, needV v ≤ (dumpsVal v).length
  | Val.none => by simp [needV, dumpsVal]
  | Val.bool b => by cases b <;> simp [needV, dumpsVal]
  | Val.int i => by
    have h := dumpsVal_len_pos (Val.int i)
    simpa [needV] using h
  | Val.str s => by simp [needV, dumpsVal]
  | Val.list xs => by
    have h := needArr_le_len xs
    simp only [needV, dumpsVal, List.length_cons]
    omega
  | Val.dict es => by
    have h := needObj_le_len es
    simp only [needV, dumpsVal, List.length_cons]
    omega

/-- The fuel needed for an array body is at most its printed length. -/
theorem needArr_le_len : ∀ xs : List Val, needArr xs ≤ (dumpsArr xs).length
  | [] => by simp [needArr, dumpsArr]
  | x :: xs => by
    have h1 := needV_le_len x
    have h2 := needArrRest_le_len xs
    have hx := dumpsVal_len_pos x
    have hxs := dumpsArrRest_len_pos xs
    simp only [needArr, dumpsArr, List.length_append]
    have hmax : Nat.max (needV x) (needArrRest xs)
        ≤ (dumpsVal x).length + (dumpsArrRest xs).length - 1 := by
      apply Nat.max_le.mpr
      constructor <;> omega
    omega

/-- The fuel needed for an array tail is at most its printed length. -/
theorem needArrRest_le_len : ∀ xs : List Val, needArrRest xs ≤ (dumpsArrRest xs).length
  | [] => by simp [needArrRest, dumpsArrRest]
  | x :: xs => by
    have h1 := needV_le_len x
    have h2 := needArrRest_le_len xs
    have hx := dumpsVal_len_pos x
    have hxs := dumpsArrRest_len_pos xs
    simp only [needArrRest, dumpsArrRest, List.length_cons, List.length_append]
    have hmax : Nat.max (needV x) (needArrRest xs)
        ≤ (dumpsVal x).length + (dumpsArrRest xs).length - 1 := by
      apply Nat.max_le.mpr
      constructor <;> omega
    omega

/-- The fuel needed for an object body is at most its printed length. -/
theorem needObj_le_len : ∀ es : List (String × Val), needObj es ≤ (dumpsObj es).length
  | [] => by simp [needObj, dumpsObj]
  | (k, v) :: es => by
    have h1 := needV_le_len v
    have h2 := needObjRest_le_len es
    have hv := dumpsVal_len_pos v
    have hes := dumpsObjRest_len_pos es
    simp only [needObj, dumpsObj, List.length_cons, List.length_append]
    have hmax : Nat.max (needV v) (needObjRest es)
        ≤ (dumpsVal v).length + (dumpsObjRest es).length - 1 := by
      apply Nat.max_le.mpr
      constructor <;> omega
    omega

/-- The fuel needed for an object tail is at most its printed length. -/
theorem needObjRest_le_len : ∀ es : List (String × Val),
    needObjRest es ≤ (dumpsObjRest es).length
  | [] => by simp [needObjRest, dumpsObjRest]
  | (k, v) :: es => by
    have h1 := needV_le_len v
    have h2 := needObjRest_le_len es
    have hv := dumpsVal_len_pos v
    have hes := dumpsObjRest_len_pos es
    simp only [needObjRest, dumpsObjRest, List.length_cons, List.length_append]
    have hmax : Nat.max (needV v) (needObjRest es)
        ≤ (dumpsVal v).length + (dumpsObjRest es).length - 1 := by
      apply Nat.max_le.mpr
      constructor <;> omega
    omega

end

/-- `json.loads` inverts `json.dumps` on well-formed values. -/
theorem loadsChars_dumps (v : Val) (hw : wfVal v = true) :
    loadsChars (dumpsVal v) = some v := by
  unfold loadsChars
  obtain ⟨c, t, hct, hws, _⟩ := dumpsVal_head v
  have hskip : skipWs (dumpsVal v) = dumpsVal v := by
    rw [hct]; exact skipWs_cons _ _ hws
  rw [hskip]
  have hr := roundV v ((dumpsVal v).length + 1) []
    (by have := needV_le_len v; omega) hw rfl
  rw [List.append_nil] at hr
  rw [hr]
  simp [skipWs]

/-! ## Everything `dumps` prints is ASCII (`ensure_ascii=True`) -/

/-- The hex digits are ASCII. -/
theorem hexDig_ascii : ∀ k : Fin 16, (hexDig k.val).toNat < 128 := by decide

/-- Every character a single escape emits is ASCII. -/
theorem escapeChar_ascii (c : Char) : ∀ d ∈ escapeChar c, d.toNat < 128 := by
  intro d hd
  have hhex : ∀ n : Nat, ∀ e ∈ hex4 n, e.toNat < 128 := by
    intro n e he
    simp only [hex4, List.mem_cons, List.not_mem_nil, or_false] at he
    rcases he with h | h | h | h <;>
      (subst h; exact hexDig_ascii ⟨_, Nat.mod_lt _ (by norm_num)⟩)
  rw [escapeChar] at hd
  split_ifs at hd with h1 h2 h3 h4 h5 h6 h7 h8 h9
  all_goals simp only [List.mem_cons, List.not_mem_nil, or_false, List.mem_append] at hd
  · rcases hd with h | h <;> (subst h; decide)
  · rcases hd with h | h <;> (subst h; decide)
  · rcases hd with h | h <;> (subst h; decide)
  · rcases hd with h | h <;> (subst h; decide)
  · rcases hd with h | h <;> (subst h; decide)
  · rcases hd with h | h <;> (subst h; decide)
  · rcases hd with h | h <;> (subst h; decide)
  · subst hd; omega
  · rcases hd with h | h | h
    · subst h; decide
    · subst h; decide
    · exact hhex _ _ h
  · rcases hd with (h | h | h) | (h | h | h)
    · subst h; decide
    · subst h; decide
    · exact hhex _ _ h
    · subst h; decide
    · subst h; decide
    · exact hhex _ _ h

/-- Every character of an escaped string body is ASCII. -/
theorem escList_ascii (s : List Char) : ∀ d ∈ escList s, d.toNat < 128 := by
  induction s with
  | nil => intro d hd; simp [escList] at hd
  | cons c cs ih =>
    intro d hd
    simp only [escList, List.mem_append] at hd
    rcases hd with h | h
    · exact escapeChar_ascii c d h
    · exact ih d h

/-- Every character of a printed integer is ASCII. -/
theorem intChars_ascii (i : Int) : ∀ d ∈ intChars i, d.toNat < 128 := by
  intro d hd
  rw [intChars] at hd
  split_ifs at hd with hi
  · simp only [List.mem_cons] at hd
    rcases hd with h | h
    · subst h; decide
    · have := (natDigits_all _ d h).2.2; omega
  · have := (natDigits_all _ d hd).2.2; omega

mutual

/-- Every character `dumpsVal` prints is ASCII. -/
theorem dumpsVal_ascii : ∀ v : Val, ∀ d ∈ dumpsVal v, d.toNat < 128
  | Val.none => fun d hd =>
    (by decide : ∀ x ∈ dumpsVal Val.none, x.toNat < 128) d hd
  | Val.bool b => by
    cases b with
    | false => exact fun d hd =>
        (by decide : ∀ x ∈ dumpsVal (Val.bool false), x.toNat < 128) d hd
    | true => exact fun d hd =>
        (by decide : ∀ x ∈ dumpsVal (Val.bool true), x.toNat < 128) d hd
  | Val.int i => fun d hd => intChars_ascii i d hd
  | Val.str s => by
    intro d hd
    simp only [dumpsVal, List.mem_cons, List.mem_append] at hd
    rcases hd with h | h | h
    · subst h; decide
    · exact escList_ascii _ d h
    · simp at h; subst h; decide
  | Val.list xs => by
    intro d hd
    simp only [dumpsVal, List.mem_cons] at hd
    rcases hd with h | h
    · subst h; decide
    · exact dumpsArr_ascii xs d h
  | Val.dict es => by
    intro d hd
    simp only [dumpsVal, List.mem_cons] at hd
    rcases hd with h | h
    · subst h; decide
    · exact dumpsObj_ascii es d h

/-- Every character of a printed array body is ASCII. -/
theorem dumpsArr_ascii : ∀ xs : List Val, ∀ d ∈ dumpsArr xs, d.toNat < 128
  | [] => fun d hd =>
    (by decide : ∀ x ∈ dumpsArr ([] : List Val), x.toNat < 128) d hd
  | x :: xs => by
    intro d hd
    simp only [dumpsArr, List.mem_append] at hd
    rcases hd with h | h
    · exact dumpsVal_ascii x d h
    · exact dumpsArrRest_ascii xs d h

/-- Every character of a printed array tail is ASCII. -/
theorem dumpsArrRest_ascii : ∀ xs : List Val, ∀ d ∈ dumpsArrRest xs, d.toNat < 128
  | [] => fun d hd =>
    (by decide : ∀ x ∈ dumpsArrRest ([] : List Val), x.toNat < 128) d hd
  | x :: xs => by
    intro d hd
    simp only [dumpsArrRest, List.mem_cons, List.mem_append] at hd
    rcases hd with h | h | h | h
    · subst h; decide
    · subst h; decide
    · exact dumpsVal_ascii x d h
    · exact dumpsArrRest_ascii xs d h

/-- Every character of a printed object body is ASCII. -/
theorem dumpsObj_ascii : ∀ es : List (String × Val), ∀ d ∈ dumpsObj es, d.toNat < 128
  | [] => fun d hd =>
    (by decide : ∀ x ∈ dumpsObj ([] : List (String × Val)), x.toNat < 128) d hd
  | (k, v) :: es => by
    intro d hd
    simp only [dumpsObj, List.mem_cons, List.mem_append] at hd
    rcases hd with h | h | h | h | h | h | h
    · subst h; decide
    · exact escList_ascii _ d h
    · subst h; decide
    · subst h; decide
    · subst h; decide
    · exact dumpsVal_ascii v d h
    · exact dumpsObjRest_ascii es d h

/-- Every character of a printed object tail is ASCII. -/
theorem dumpsObjRest_ascii : ∀ es : List (String × Val), ∀ d ∈ dumpsObjRest es, d.toNat < 128
  | [] => fun d hd =>
    (by decide : ∀ x ∈ dumpsObjRest ([] : List (String × Val)), x.toNat < 128) d hd
  | (k, v) :: es => by
    intro d hd
    simp only [dumpsObjRest, List.mem_cons, List.mem_append] at hd
    rcases hd with h | h | h | h | h | h | h | h | h
    · subst h; decide
    · subst h; decide
    · subst h; decide
    · exact escList_ascii _ d h
    · subst h; decide
    · subst h; decide
    · subst h; decide
    · exact dumpsVal_ascii v d h
    · exact dumpsObjRest_ascii es d h

end

/-- `asciiDecode` inverts `Char.toNat` on ASCII text. -/
theorem asciiDecode_map (cs : List Char) (h : ∀ c ∈ cs, c.toNat < 128) :
    asciiDecode (cs.map Char.toNat) = some cs := by
  induction cs with
  | nil => rfl
  | cons c cs ih =>
    have hc : c.toNat < 128 := h c (by simp)
    simp only [List.map_cons, asciiDecode, if_pos hc]
    rw [ih (fun x hx => h x (by simp [hx])), ofNat_toNat_c]
    rfl

/-- `(String.mk l).data = l`. -/
theorem string_data_mk (l : List Char) : (String.mk l).data = l := rfl

/-! ## The state-codec round trip -/

/-- Deserializing a serialized well-formed value recovers it:
`_deserialize_state(_serialize(v), True) == v`. -/
theorem codec_roundtrip (v : Val) (hw : wfVal v = true) :
    deserialize_state (Val.str (pySerialize v)) true = Except.ok v := by
  have hbytes : ∀ b ∈ (dumpsVal v).map Char.toNat, b < 256 := by
    intro b hb
    simp only [List.mem_map] at hb
    obtain ⟨c, hc, rfl⟩ := hb
    have := dumpsVal_ascii v c hc
    omega
  rw [show deserialize_state (Val.str (pySerialize v)) true
      = (match b64decode (pySerialize v).data with
        | some bs =>
          match loadsBytes bs with
          | some w => Except.ok w
          | Option.none => Except.error PyErr.invalidState
        | Option.none => Except.error PyErr.invalidState) from rfl]
  rw [show (pySerialize v).data = b64encode ((dumpsVal v).map Char.toNat) from rfl]
  rw [b64_rt _ hbytes]
  show (match loadsBytes ((dumpsVal v).map Char.toNat) with
      | some w => Except.ok w
      | Option.none => Except.error PyErr.invalidState) = Except.ok v
  rw [show loadsBytes ((dumpsVal v).map Char.toNat) = some v from by
    rw [show loadsBytes ((dumpsVal v).map Char.toNat)
        = (match asciiDecode ((dumpsVal v).map Char.toNat) with
          | some cs => loadsChars cs
          | Option.none => Option.none) from rfl]
    rw [asciiDecode_map _ (dumpsVal_ascii v)]
    show loadsChars (dumpsVal v) = some v
    exact loadsChars_dumps v hw]

/-! ## Association-list lookup helpers -/

/-- Lookup distributes over append, preferring the front. -/
theorem dictGet_append (k : String) (xs ys : PyDict) :
    dictGet k (xs ++ ys)
      = match dictGet k xs with
        | some v => some v
        | Option.none => dictGet k ys := by
  induction xs with
  | nil => rfl
  | cons e es ih =>
    obtain ⟨k2, v2⟩ := e
    by_cases h : k2 = k
    · simp [dictGet, h]
    · simp [dictGet, h, ih]

/-- Lookup misses when no key matches. -/
theorem dictGet_nomatch (k : String) : ∀ xs : PyDict,
    (∀ kv ∈ xs, kv.1 ≠ k) → dictGet k xs = Option.none
  | [], _ => rfl
  | (k2, v2) :: es, h => by
    have h2 : k2 ≠ k := h (k2, v2) (by simp)
    simp only [dictGet, if_neg h2]
    exact dictGet_nomatch k es (fun kv hkv => h kv (by simp [hkv]))

/-- `pyEqStr` agrees with equality to a string value. -/
theorem pyEqStr_iff (v : Val) (s : String) : pyEqStr v s = true ↔ v = Val.str s := by
  cases v <;> simp [pyEqStr]

/-! # Claims -/

/-- C1 (code bug): `load_from_payload` is claimed to copy every non-reserved
entry into `payload` regardless of entry order and of whether a client field
is present.  The `break` after the first client-field match ends the scan
early, so `"foo"` (which follows the client field) is dropped and `payload`
comes back empty; the well-known example without a client field works as
specified.  This theorem evaluates the code on both inputs. -/
theorem loadFromPayload_break_drops_payload :
    InvocationRequest.load_from_payload
        [("x-api-concierge-request", Val.str "invoke"),
         ("x-api-concierge-client", Val.str "c1"),
         ("foo", Val.int 1)] true
      = Except.ok ⟨[], Val.str "c1", Val.none⟩
    ∧ InvocationRequest.load_from_payload
        [("x-api-concierge-request", Val.str "invoke"),
         ("x-api-concierge-state", Val.str (pySerialize (Val.dict [("n", Val.int 1)]))),
         ("foo", Val.int 1), ("bar", Val.int 2)] true
      = Except.ok ⟨[("foo", Val.int 1), ("bar", Val.int 2)], Val.none,
          Val.dict [("n", Val.int 1)]⟩ :=
  ⟨rfl, rfl⟩

/-- C2 (code bug): the raw-state validation is claimed to reject any string
with a character outside `[A-Za-z0-9,;_=-]`.  The source uses
`re.match(r"[^A-Za-z0-9,;-_=]", state)`, which tests only the FIRST character
(and whose `;-_` is a character range), so `"abc def"` is accepted and
returned unchanged; `"abc"` behaves as claimed. -/
theorem serializeState_raw_firstCharOnly :
    serialize_state (Val.str "abc def") false = Except.ok "abc def"
    ∧ serialize_state (Val.str "abc") false = Except.ok "abc" :=
  ⟨rfl, rfl⟩

/-- C4 (code bug): the raw round trip is claimed for every string over
`[A-Za-z0-9,;_=-]`, but the source regex's `;-_` is the range 0x3B–0x5F, which
does not contain `-`, so `_serialize_state("-", False)` raises `ValueError`
and the round trip fails at the encoding step (decoding alone is the
identity, as the second conjunct shows). -/
theorem serializeState_raw_hyphen_rejected :
    serialize_state (Val.str "-") false = Except.error PyErr.valueError
    ∧ deserialize_state (Val.str "-") false = Except.ok (Val.str "-") :=
  ⟨rfl, rfl⟩

/-- C3: state round trip for serialized mode: for every well-formed value
(every `dict` layer duplicate-free, as any Python value is),
`_deserialize_state(_serialize(v), True)` returns `v` exactly. -/
theorem stateRoundTrip_serialized (v : Val) (h : wfVal v = true) :
    deserialize_state (Val.str (pySerialize v)) true = Except.ok v :=
  codec_roundtrip v h

/-- Witness for C3 at `v = {"n": 1}`. -/
theorem stateRoundTrip_serialized_witness :
    wfVal (Val.dict [("n", Val.int 1)]) = true
    ∧ deserialize_state (Val.str (pySerialize (Val.dict [("n", Val.int 1)]))) true
        = Except.ok (Val.dict [("n", Val.int 1)]) :=
  ⟨rfl, stateRoundTrip_serialized (Val.dict [("n", Val.int 1)]) rfl⟩

/-- `None` is `None`. -/
theorem isNone_none : isNone Val.none = true := rfl

/-- Lookup through a conditional mapping. -/
theorem dictGet_ite (k : String) (c : Prop) [Decidable c] (xs ys : PyDict) :
    dictGet k (if c then xs else ys) = if c then dictGet k xs else dictGet k ys := by
  by_cases h : c <;> simp [h]

/-- Lookup skips a prefix it misses. -/
theorem dictGet_append_none (k : String) (xs ys : PyDict)
    (h : dictGet k xs = Option.none) :
    dictGet k (xs ++ ys) = dictGet k ys := by
  rw [dictGet_append, h]

/-- Lookup stops at a prefix it hits. -/
theorem dictGet_append_some (k : String) (xs ys : PyDict) (v : Val)
    (h : dictGet k xs = some v) :
    dictGet k (xs ++ ys) = some v := by
  rw [dictGet_append, h]

/-- `Except` monad operations reduced to constructors. -/
theorem except_pure_eq_ok {α : Type} (a : α) :
    (pure a : Except PyErr α) = Except.ok a := rfl

/-- Bind on a success. -/
theorem except_ok_bind {α β : Type} (a : α) (f : α → Except PyErr β) :
    (Except.ok a >>= f) = f a := rfl

/-- Bind on a failure. -/
theorem except_error_bind {α β : Type} (e : PyErr) (f : α → Except PyErr β) :
    ((Except.error e : Except PyErr α) >>= f) = Except.error e := rfl

/-- The reserved field names are pairwise distinct. -/
theorem respNeSchema : RESPONSE_FIELD ≠ SCHEMA_FIELD := by decide

/-- `response` vs `instructions`. -/
theorem respNeInstr : RESPONSE_FIELD ≠ INSTRUCTIONS_FIELD := by decide

/-- `response` vs `state`. -/
theorem respNeState : RESPONSE_FIELD ≠ STATE_FIELD := by decide

/-- `response` vs `base`. -/
theorem respNeBase : RESPONSE_FIELD ≠ BASE_FIELD := by decide

/-- `response` vs `path`. -/
theorem respNePath : RESPONSE_FIELD ≠ PATH_FIELD := by decide

/-- `response` vs `error`. -/
theorem respNeErr : RESPONSE_FIELD ≠ ERROR_FIELD := by decide

/-- `schema` vs `instructions`. -/
theorem schemaNeInstr : SCHEMA_FIELD ≠ INSTRUCTIONS_FIELD := by decide

/-- `schema` vs `state`. -/
theorem schemaNeState : SCHEMA_FIELD ≠ STATE_FIELD := by decide

/-- `schema` vs `base`. -/
theorem schemaNeBase : SCHEMA_FIELD ≠ BASE_FIELD := by decide

/-- `schema` vs `path`. -/
theorem schemaNePath : SCHEMA_FIELD ≠ PATH_FIELD := by decide

/-- `instructions` vs `state`. -/
theorem instrNeState : INSTRUCTIONS_FIELD ≠ STATE_FIELD := by decide

/-- `instructions` vs `base`. -/
theorem instrNeBase : INSTRUCTIONS_FIELD ≠ BASE_FIELD := by decide

/-- `instructions` vs `path`. -/
theorem instrNePath : INSTRUCTIONS_FIELD ≠ PATH_FIELD := by decide

/-- `state` vs `base`. -/
theorem stateNeBase : STATE_FIELD ≠ BASE_FIELD := by decide

/-- `state` vs `path`. -/
theorem stateNePath : STATE_FIELD ≠ PATH_FIELD := by decide

/-- `base` vs `path`. -/
theorem baseNePath : BASE_FIELD ≠ PATH_FIELD := by decide

/-- `error` vs `schema`. -/
theorem errNeSchema : ERROR_FIELD ≠ SCHEMA_FIELD := by decide

/-- `error` vs `state`. -/
theorem errNeState : ERROR_FIELD ≠ STATE_FIELD := by decide

/-- `error` vs `base`. -/
theorem errNeBase : ERROR_FIELD ≠ BASE_FIELD := by decide

/-- `error` vs `path`. -/
theorem errNePath : ERROR_FIELD ≠ PATH_FIELD := by decide

/-- C5 counterexample: both mappings hold a key that case-insensitively equals
the reserved request field with value `"schema"`, yet the classifier answers
differ: the scan stops at the FIRST case-insensitive match and never looks
further, so a duplicate case-variant request key makes the boolean result
depend on entry order. -/
theorem isSchemaRequest_order_sensitive :
    is_schema_request
        [("X-API-CONCIERGE-REQUEST", Val.str "invoke"),
         ("x-api-concierge-request", Val.str "schema")] = false
    ∧ is_schema_request
        [("x-api-concierge-request", Val.str "schema"),
         ("X-API-CONCIERGE-REQUEST", Val.str "invoke")] = true :=
  ⟨rfl, rfl⟩

/-- C5 (corrected): when at most one key of `d` case-insensitively equals the
reserved request field (true of any deduplicated header mapping),
`is_schema_request d` is true iff such a key exists with value exactly
`"schema"`, and the entry order is then irrelevant (the right-hand side is
order-blind). -/
theorem isSchemaRequest_iff_of_unique (d : PyDict)
    (huniq : (fieldMatches REQUEST_FIELD d).length ≤ 1) :
    is_schema_request d = true
      ↔ ∃ kv ∈ d, strLower kv.1 = strLower REQUEST_FIELD ∧ kv.2 = Val.str "schema" := by
  induction d with
  | nil => simp [is_schema_request]
  | cons kv rest ih =>
    obtain ⟨k, v⟩ := kv
    by_cases hk : strLower k = strLower REQUEST_FIELD
    · have hrest : ∀ kv2 ∈ rest, ¬ strLower kv2.1 = strLower REQUEST_FIELD := by
        have h1 := huniq
        rw [show fieldMatches REQUEST_FIELD ((k, v) :: rest)
              = (k, v) :: fieldMatches REQUEST_FIELD rest from by
            simp [fieldMatches, List.filter_cons, hk]] at h1
        have h2 : fieldMatches REQUEST_FIELD rest = [] := by
          cases hmr : fieldMatches REQUEST_FIELD rest with
          | nil => rfl
          | cons a t => rw [hmr] at h1; simp at h1
        intro kv2 hm2 hbad
        have hmem2 : kv2 ∈ fieldMatches REQUEST_FIELD rest := by
          simp [fieldMatches, List.mem_filter, hm2, hbad]
        rw [h2] at hmem2
        simp at hmem2
      rw [show is_schema_request ((k, v) :: rest) = pyEqStr v "schema" from by
        simp [is_schema_request, hk]]
      constructor
      · intro hpe
        exact ⟨(k, v), by simp, hk, (pyEqStr_iff v _).mp hpe⟩
      · rintro ⟨kv2, hmem, hmatch, hval⟩
        rcases List.mem_cons.mp hmem with heq | hm
        · subst heq
          simp only [] at hval
          exact (pyEqStr_iff v _).mpr hval
        · exact absurd hmatch (hrest kv2 hm)
    · have huniq2 : (fieldMatches REQUEST_FIELD rest).length ≤ 1 := by
        have h1 := huniq
        rw [show fieldMatches REQUEST_FIELD ((k, v) :: rest)
              = fieldMatches REQUEST_FIELD rest from by
            simp [fieldMatches, List.filter_cons, hk]] at h1
        exact h1
      rw [show is_schema_request ((k, v) :: rest) = is_schema_request rest from by
        simp [is_schema_request, hk]]
      rw [ih huniq2]
      constructor
      · rintro ⟨kv2, hm, hp⟩; exact ⟨kv2, by simp [hm], hp⟩
      · rintro ⟨kv2, hmem, hmatch, hval⟩
        rcases List.mem_cons.mp hmem with heq | hm
        · subst heq; exact absurd hmatch hk
        · exact ⟨kv2, hm, hmatch, hval⟩

/-- Witness for the corrected C5 at a unique-request-key mapping. -/
theorem isSchemaRequest_iff_of_unique_witness :
    (fieldMatches REQUEST_FIELD
        [("foo", Val.int 1), ("X-Api-Concierge-Request", Val.str "schema")]).length ≤ 1
    ∧ is_schema_request
        [("foo", Val.int 1), ("X-Api-Concierge-Request", Val.str "schema")] = true :=
  ⟨by decide,
   (isSchemaRequest_iff_of_unique
      [("foo", Val.int 1), ("X-Api-Concierge-Request", Val.str "schema")]
      (by decide)).mpr
     ⟨("X-Api-Concierge-Request", Val.str "schema"), by simp, by decide, rfl⟩⟩

/-- The client-extraction loop of `SchemaRequest.load` returns `None` when no
key case-insensitively matches the client field, and the value of the match
when there is exactly one. -/
theorem findClient_spec (d : PyDict) :
    (fieldMatches CLIENT_FIELD d = [] → findClient d = Val.none)
    ∧ (∀ k v, fieldMatches CLIENT_FIELD d = [(k, v)] → findClient d = v) := by
  induction d with
  | nil => exact ⟨fun _ => rfl, fun k v h => by simp [fieldMatches] at h⟩
  | cons kv rest ih =>
    obtain ⟨k2, v2⟩ := kv
    by_cases hk : strLower k2 = strLower CLIENT_FIELD
    · have hcons : fieldMatches CLIENT_FIELD ((k2, v2) :: rest)
          = (k2, v2) :: fieldMatches CLIENT_FIELD rest := by
        simp [fieldMatches, List.filter_cons, hk]
      constructor
      · intro h; rw [hcons] at h; simp at h
      · intro k v h
        rw [hcons] at h
        simp only [List.cons.injEq, Prod.mk.injEq] at h
        simp [findClient, hk, h.1.2]
    · have hcons : fieldMatches CLIENT_FIELD ((k2, v2) :: rest)
          = fieldMatches CLIENT_FIELD rest := by
        simp [fieldMatches, List.filter_cons, hk]
      constructor
      · intro h; rw [hcons] at h
        simp only [findClient, if_neg hk]
        exact ih.1 h
      · intro k v h; rw [hcons] at h
        simp only [findClient, if_neg hk]
        exact ih.2 k v h

/-- C9: `SchemaRequest.load d` fails with `InvalidRequest` exactly when
`is_schema_request d` is false; otherwise it succeeds with `client` equal to
the value of the unique case-insensitive client-field match of `d`, or `None`
when there is no such key. -/
theorem schemaRequest_load_spec (d : PyDict) :
    (is_schema_request d = false ↔ SchemaRequest.load d = Except.error PyErr.invalidRequest)
    ∧ (is_schema_request d = true →
        (fieldMatches CLIENT_FIELD d = [] → SchemaRequest.load d = Except.ok ⟨Val.none⟩)
        ∧ (∀ k v, fieldMatches CLIENT_FIELD d = [(k, v)] →
            SchemaRequest.load d = Except.ok ⟨v⟩)) := by
  constructor
  · constructor
    · intro h; simp [SchemaRequest.load, h]
    · intro h
      by_cases hs : is_schema_request d = false
      · exact hs
      · simp [SchemaRequest.load, hs] at h
  · intro hs
    have hs2 : ¬ is_schema_request d = false := by simp [hs]
    constructor
    · intro h
      simp only [SchemaRequest.load, if_neg hs2]
      rw [(findClient_spec d).1 h]
    · intro k v h
      simp only [SchemaRequest.load, if_neg hs2]
      rw [(findClient_spec d).2 k v h]

/-- Witness for C9 at the spec's example mapping. -/
theorem schemaRequest_load_spec_witness :
    SchemaRequest.load
        [("x-api-concierge-request", Val.str "schema"),
         ("x-api-concierge-client", Val.str "c1")]
      = Except.ok ⟨Val.str "c1"⟩ :=
  ((schemaRequest_load_spec
      [("x-api-concierge-request", Val.str "schema"),
       ("x-api-concierge-client", Val.str "c1")]).2 rfl).2
    "x-api-concierge-client" (Val.str "c1") rfl

/-- A request-field entry with a value other than `"invoke"` anywhere in the
mapping makes the identification scan answer not-an-invocation, whatever the
accumulator state. -/
theorem identifyGo_noninvoke : ∀ (d : PyDict) (f : Bool) (st : Val),
    (∃ kv ∈ d, strLower kv.1 = strLower REQUEST_FIELD ∧ pyEqStr kv.2 "invoke" = false) →
    identifyGo d f st = (false, Val.none) := by
  intro d
  induction d with
  | nil => intro f st h; simp at h
  | cons kv rest ih =>
    intro f st h
    obtain ⟨k, v⟩ := kv
    by_cases hk : strLower k = strLower REQUEST_FIELD
    · by_cases hv : pyEqStr v "invoke" = false
      · simp [identifyGo, hk, hv]
      · have hrest : ∃ kv ∈ rest,
            strLower kv.1 = strLower REQUEST_FIELD ∧ pyEqStr kv.2 "invoke" = false := by
          rcases h with ⟨kv2, hmem, hmatch, hval⟩
          rcases List.mem_cons.mp hmem with heq | hm
          · exfalso; apply hv; subst heq; exact hval
          · exact ⟨kv2, hm, hmatch, hval⟩
        simp only [identifyGo, if_pos hk, if_neg hv]
        exact ih true st hrest
    · have hrest : ∃ kv ∈ rest,
          strLower kv.1 = strLower REQUEST_FIELD ∧ pyEqStr kv.2 "invoke" = false := by
        rcases h with ⟨kv2, hmem, hmatch, hval⟩
        rcases List.mem_cons.mp hmem with heq | hm
        · exfalso; apply hk; subst heq; exact hmatch
        · exact ⟨kv2, hm, hmatch, hval⟩
      by_cases hst : strLower k = strLower STATE_FIELD
      · simp only [identifyGo, if_neg hk, if_pos hst]
        exact ih f v hrest
      · simp only [identifyGo, if_neg hk, if_neg hst]
        exact ih f st hrest

/-- C6: with a non-`None` expected state `X` and serialized-state mode,
`is_invocation_request d X` (1) answers `ok true` only when the scan
identifies `d` as an invocation and the carried state deserializes to a value
Python-equal to `X`; (2) cannot answer `ok true` once the deserialized state
is not Python-equal to `X`; and (3) answers `ok false` whenever some
request-field entry carries a value other than `"invoke"`. -/
theorem isInvocation_state_pinning (d : PyDict) (X : Val) (hX : isNone X = false) :
    (is_invocation_request d X true = Except.ok true →
      (identify d).1 = true
      ∧ ∃ v, deserialize_state (identify d).2 true = Except.ok v ∧ pyEq X v = true)
    ∧ (∀ v, deserialize_state (identify d).2 true = Except.ok v → pyEq X v = false →
        is_invocation_request d X true ≠ Except.ok true)
    ∧ ((∃ kv ∈ d, strLower kv.1 = strLower REQUEST_FIELD ∧ pyEqStr kv.2 "invoke" = false) →
        is_invocation_request d X true = Except.ok false) := by
  refine ⟨?_, ?_, ?_⟩
  · intro h
    by_cases hid : (identify d).1 = false
    · simp [is_invocation_request, hid] at h
    · have hid2 : (identify d).1 = true := by
        cases hb : (identify d).1
        · exact absurd hb hid
        · rfl
      refine ⟨hid2, ?_⟩
      simp only [is_invocation_request, if_neg hid,
        if_neg (by simp [hX] : ¬ (isNone X = true))] at h
      cases hdes : deserialize_state (identify d).2 true with
      | ok v0 =>
        rw [hdes] at h
        simp only [Except.ok.injEq] at h
        exact ⟨v0, rfl, h⟩
      | error e => rw [hdes] at h; simp at h
  · intro v hdes hne h
    by_cases hid : (identify d).1 = false
    · simp [is_invocation_request, hid] at h
    · simp only [is_invocation_request, if_neg hid,
        if_neg (by simp [hX] : ¬ (isNone X = true))] at h
      rw [hdes] at h
      simp [hne] at h
  · intro hex
    have hid : identify d = (false, Val.none) := by
      rw [identify]; exact identifyGo_noninvoke d false Val.none hex
    simp [is_invocation_request, hid]

/-- Witness for C6: a well-formed invocation carrying serialized state `1`
tested against expected state `2` is not accepted. -/
theorem isInvocation_state_pinning_witness :
    is_invocation_request
        [("x-api-concierge-request", Val.str "invoke"),
         ("x-api-concierge-state", Val.str (pySerialize (Val.int 1)))]
        (Val.int 2) true
      ≠ Except.ok true :=
  (isInvocation_state_pinning
      [("x-api-concierge-request", Val.str "invoke"),
       ("x-api-concierge-state", Val.str (pySerialize (Val.int 1)))]
      (Val.int 2) rfl).2.1
    (Val.int 1) rfl (by simp [pyEq])

/-- When no key of the mapping case-insensitively matches the state field,
the identification scan never changes its state accumulator. -/
theorem identifyGo_no_state : ∀ (d : PyDict) (f : Bool) (st : Val),
    (∀ kv ∈ d, ¬ strLower kv.1 = strLower STATE_FIELD) →
    (identifyGo d f st).2 = st ∨ identifyGo d f st = (false, Val.none) := by
  intro d
  induction d with
  | nil =>
    intro f st _
    cases f
    · exact Or.inr rfl
    · exact Or.inl rfl
  | cons kv rest ih =>
    intro f st h
    obtain ⟨k, v⟩ := kv
    have hst : ¬ strLower k = strLower STATE_FIELD := h (k, v) (by simp)
    have hrest : ∀ kv ∈ rest, ¬ strLower kv.1 = strLower STATE_FIELD :=
      fun kv hm => h kv (by simp [hm])
    by_cases hk : strLower k = strLower REQUEST_FIELD
    · by_cases hv : pyEqStr v "invoke" = false
      · simp [identifyGo, hk, hv]
      · simp only [identifyGo, if_pos hk, if_neg hv]
        exact ih true st hrest
    · simp only [identifyGo, if_neg hk, if_neg hst]
      exact ih f st hrest

/-- C10 (implicit): an identified invocation mapping with no state key, probed
with a non-`None` expected state in serialized mode, raises `InvalidState`
(the absent state, `None`, is handed to base64 decoding and the failure is
wrapped) instead of returning `false`. -/
theorem isInvocation_missing_state_raises (d : PyDict) (X : Val)
    (hX : isNone X = false)
    (hshape : (identify d).1 = true)
    (hnostate : ∀ kv ∈ d, ¬ strLower kv.1 = strLower STATE_FIELD) :
    is_invocation_request d X true = Except.error PyErr.invalidState := by
  have h2 : (identify d).2 = Val.none := by
    rcases identifyGo_no_state d false Val.none hnostate with h | h
    · exact h
    · rw [identify, h] at hshape; simp at hshape
  simp only [is_invocation_request, if_neg (by simp [hshape] : ¬ ((identify d).1 = false)),
    if_neg (by simp [hX] : ¬ (isNone X = true))]
  rw [h2]
  rfl

/-- Witness for C10: a bare invocation request probed with expected state `1`. -/
theorem isInvocation_missing_state_raises_witness :
    is_invocation_request [("x-api-concierge-request", Val.str "invoke")] (Val.int 1) true
      = Except.error PyErr.invalidState :=
  isInvocation_missing_state_raises
    [("x-api-concierge-request", Val.str "invoke")] (Val.int 1) rfl rfl
    (by intro kv hkv; rw [List.mem_singleton] at hkv; subst hkv; decide)

/-- C7: with `path` non-`None`, constructing a `SchemaResponse` or
`ErrorResponse` with `base` unset raises `ValueError`; with `base` also set,
construction succeeds and every successful `get_payload` emits `base` and
`path` verbatim while every successful `get_headers` emits `base` serialized
(base64 of JSON) and `path` as a plain value. -/
theorem responses_base_path_invariant
    (sch ins st em b p : Val) (hp : isNone p = false) (hb : isNone b = false) :
    SchemaResponse.make sch ins st Val.none p = Except.error PyErr.valueError
    ∧ ErrorResponse.make em sch st Val.none p = Except.error PyErr.valueError
    ∧ SchemaResponse.make sch ins st b p = Except.ok ⟨sch, ins, st, b, p⟩
    ∧ ErrorResponse.make em sch st b p = Except.ok ⟨em, sch, st, b, p⟩
    ∧ (∀ flag m, SchemaResponse.get_payload ⟨sch, ins, st, b, p⟩ flag = Except.ok m →
        dictGet BASE_FIELD m = some b ∧ dictGet PATH_FIELD m = some p)
    ∧ (∀ flag m, SchemaResponse.get_headers ⟨sch, ins, st, b, p⟩ flag = Except.ok m →
        dictGet BASE_FIELD m = some (Val.str (pySerialize b))
        ∧ dictGet PATH_FIELD m = some p)
    ∧ (∀ flag m, ErrorResponse.get_payload ⟨em, sch, st, b, p⟩ flag = Except.ok m →
        dictGet BASE_FIELD m = some b ∧ dictGet PATH_FIELD m = some p)
    ∧ (∀ flag m, ErrorResponse.get_headers ⟨em, sch, st, b, p⟩ flag = Except.ok m →
        dictGet BASE_FIELD m = some (Val.str (pySerialize b))
        ∧ dictGet PATH_FIELD m = some p) := by
  refine ⟨?_, ?_, ?_, ?_, ?_, ?_, ?_, ?_⟩
  · simp [SchemaResponse.make, hp, isNone_none]
  · simp [ErrorResponse.make, hp, isNone_none]
  · simp [SchemaResponse.make, hb]
  · simp [ErrorResponse.make, hb]
  · intro flag m h
    by_cases hst : isNone st = true
    · simp [SchemaResponse.get_payload, hst, except_pure_eq_ok, except_ok_bind,
        hb, hp] at h
      subst h
      exact ⟨by simp [dictGet_ite, dictGet_append_none, dictGet_append_some, dictGet,
               respNeBase, schemaNeBase, instrNeBase],
             by simp [dictGet_ite, dictGet_append_none, dictGet_append_some, dictGet,
               respNePath, schemaNePath, instrNePath, baseNePath]⟩
    · cases hser : serialize_state st flag with
      | ok s0 =>
        simp [SchemaResponse.get_payload, hst, hser, except_pure_eq_ok,
          except_ok_bind, hb, hp] at h
        subst h
        exact ⟨by simp [dictGet_ite, dictGet_append_none, dictGet_append_some, dictGet,
                 respNeBase, schemaNeBase, instrNeBase, stateNeBase],
               by simp [dictGet_ite, dictGet_append_none, dictGet_append_some, dictGet,
                 respNePath, schemaNePath, instrNePath, stateNePath, baseNePath]⟩
      | error e =>
        simp [SchemaResponse.get_payload, hst, hser, except_error_bind] at h
  · intro flag m h
    by_cases hst : isNone st = true
    · simp [SchemaResponse.get_headers, hst, except_pure_eq_ok, except_ok_bind,
        hb, hp] at h
      subst h
      exact ⟨by simp [dictGet_ite, dictGet_append_none, dictGet_append_some, dictGet,
               respNeBase, schemaNeBase, instrNeBase],
             by simp [dictGet_ite, dictGet_append_none, dictGet_append_some, dictGet,
               respNePath, schemaNePath, instrNePath, baseNePath]⟩
    · cases hser : serialize_state st flag with
      | ok s0 =>
        simp [SchemaResponse.get_headers, hst, hser, except_pure_eq_ok,
          except_ok_bind, hb, hp] at h
        subst h
        exact ⟨by simp [dictGet_ite, dictGet_append_none, dictGet_append_some, dictGet,
                 respNeBase, schemaNeBase, instrNeBase, stateNeBase],
               by simp [dictGet_ite, dictGet_append_none, dictGet_append_some, dictGet,
                 respNePath, schemaNePath, instrNePath, stateNePath, baseNePath]⟩
      | error e =>
        simp [SchemaResponse.get_headers, hst, hser, except_error_bind] at h
  · intro flag m h
    by_cases hst : isNone st = true
    · simp [ErrorResponse.get_payload, hst, except_pure_eq_ok, except_ok_bind,
        hb, hp] at h
      subst h
      exact ⟨by simp [dictGet_ite, dictGet_append_none, dictGet_append_some, dictGet,
               respNeBase, errNeBase, schemaNeBase],
             by simp [dictGet_ite, dictGet_append_none, dictGet_append_some, dictGet,
               respNePath, errNePath, schemaNePath, baseNePath]⟩
    · cases hser : serialize_state st flag with
      | ok s0 =>
        simp [ErrorResponse.get_payload, hst, hser, except_pure_eq_ok,
          except_ok_bind, hb, hp] at h
        subst h
        exact ⟨by simp [dictGet_ite, dictGet_append_none, dictGet_append_some, dictGet,
                 respNeBase, errNeBase, schemaNeBase, stateNeBase],
               by simp [dictGet_ite, dictGet_append_none, dictGet_append_some, dictGet,
                 respNePath, errNePath, schemaNePath, stateNePath, baseNePath]⟩
      | error e =>
        simp [ErrorResponse.get_payload, hst, hser, except_error_bind] at h
  · intro flag m h
    by_cases hst : isNone st = true
    · simp [ErrorResponse.get_headers, hst, except_pure_eq_ok, except_ok_bind,
        hb, hp] at h
      subst h
      exact ⟨by simp [dictGet_ite, dictGet_append_none, dictGet_append_some, dictGet,
               respNeBase, errNeBase, schemaNeBase],
             by simp [dictGet_ite, dictGet_append_none, dictGet_append_some, dictGet,
               respNePath, errNePath, schemaNePath, baseNePath]⟩
    · cases hser : serialize_state st flag with
      | ok s0 =>
        simp [ErrorResponse.get_headers, hst, hser, except_pure_eq_ok,
          except_ok_bind, hb, hp] at h
        subst h
        exact ⟨by simp [dictGet_ite, dictGet_append_none, dictGet_append_some, dictGet,
                 respNeBase, errNeBase, schemaNeBase, stateNeBase],
               by simp [dictGet_ite, dictGet_append_none, dictGet_append_some, dictGet,
                 respNePath, errNePath, schemaNePath, stateNePath, baseNePath]⟩
      | error e =>
        simp [ErrorResponse.get_headers, hst, hser, except_error_bind] at h

/-- Witness for C7: a schema response with base `"b"` and path `"/p"` built in
payload mode carries both verbatim. -/
theorem responses_base_path_invariant_witness :
    dictGet BASE_FIELD
        [(RESPONSE_FIELD, Val.str "schema"), (SCHEMA_FIELD, Val.int 1),
         (BASE_FIELD, Val.str "b"), (PATH_FIELD, Val.str "/p")]
      = some (Val.str "b")
    ∧ dictGet PATH_FIELD
        [(RESPONSE_FIELD, Val.str "schema"), (SCHEMA_FIELD, Val.int 1),
         (BASE_FIELD, Val.str "b"), (PATH_FIELD, Val.str "/p")]
      = some (Val.str "/p") :=
  (responses_base_path_invariant (Val.int 1) Val.none Val.none Val.none
      (Val.str "b") (Val.str "/p") rfl rfl).2.2.2.2.1 true
    [(RESPONSE_FIELD, Val.str "schema"), (SCHEMA_FIELD, Val.int 1),
     (BASE_FIELD, Val.str "b"), (PATH_FIELD, Val.str "/p")] rfl

/-- C8: every successful `get_headers` of a `SchemaResponse` carries the
schema serialized (base64 of JSON) whatever the serialized-state flag — and
for well-formed schemas that header value decodes back to the original —
while `instructions` and `path` are emitted verbatim, `base` (when present)
is serialized, and `state` (when present) goes through the state codec under
the flag. -/
theorem schemaResponse_headers_serialized (r : SchemaResponse) (flag : Bool) (m : PyDict)
    (h : SchemaResponse.get_headers r flag = Except.ok m) :
    dictGet SCHEMA_FIELD m = some (Val.str (pySerialize r.schema))
    ∧ (wfVal r.schema = true →
        deserialize_state (Val.str (pySerialize r.schema)) true = Except.ok r.schema)
    ∧ (isNone r.instructions = false →
        dictGet INSTRUCTIONS_FIELD m = some r.instructions)
    ∧ (isNone r.state = false →
        ∃ s, serialize_state r.state flag = Except.ok s
          ∧ dictGet STATE_FIELD m = some (Val.str s))
    ∧ (isNone r.base = false →
        dictGet BASE_FIELD m = some (Val.str (pySerialize r.base)))
    ∧ (isNone r.base = false → isNone r.path = false →
        dictGet PATH_FIELD m = some r.path) := by
  by_cases hst : isNone r.state = true
  · simp [SchemaResponse.get_headers, hst, except_pure_eq_ok, except_ok_bind] at h
    subst h
    refine ⟨?_, fun hw => codec_roundtrip r.schema hw, ?_, ?_, ?_, ?_⟩
    · simp [dictGet_ite, dictGet_append_none, dictGet_append_some, dictGet,
        respNeSchema]
    · intro hi
      simp [hi, dictGet_ite, dictGet_append_none, dictGet_append_some, dictGet,
        respNeInstr, schemaNeInstr]
    · intro hsf; simp [hsf] at hst
    · intro hbq
      simp [hbq, dictGet_ite, dictGet_append_none, dictGet_append_some, dictGet,
        respNeBase, schemaNeBase, instrNeBase]
    · intro hbq hpq
      simp [hbq, hpq, dictGet_ite, dictGet_append_none, dictGet_append_some, dictGet,
        respNePath, schemaNePath, instrNePath, baseNePath]
  · cases hser : serialize_state r.state flag with
    | ok s0 =>
      simp [SchemaResponse.get_headers, hst, hser, except_pure_eq_ok,
        except_ok_bind] at h
      subst h
      refine ⟨?_, fun hw => codec_roundtrip r.schema hw, ?_, ?_, ?_, ?_⟩
      · simp [dictGet_ite, dictGet_append_none, dictGet_append_some, dictGet,
          respNeSchema]
      · intro hi
        simp [hi, dictGet_ite, dictGet_append_none, dictGet_append_some, dictGet,
          respNeInstr, schemaNeInstr]
      · intro hsf
        exact ⟨s0, rfl, by
          simp [dictGet_ite, dictGet_append_none, dictGet_append_some, dictGet,
            respNeState, schemaNeState, instrNeState]⟩
      · intro hbq
        simp [hbq, dictGet_ite, dictGet_append_none, dictGet_append_some, dictGet,
          respNeBase, schemaNeBase, instrNeBase, stateNeBase]
      · intro hbq hpq
        simp [hbq, hpq, dictGet_ite, dictGet_append_none, dictGet_append_some, dictGet,
          respNePath, schemaNePath, instrNePath, stateNePath, baseNePath]
    | error e =>
      simp [SchemaResponse.get_headers, hst, hser, except_error_bind] at h

/-- Witness for C8 at the spec's `{"type": "string"}` schema header example. -/
theorem schemaResponse_headers_serialized_witness :
    dictGet SCHEMA_FIELD
        [(RESPONSE_FIELD, Val.str "schema"),
         (SCHEMA_FIELD, Val.str (pySerialize (Val.dict [("type", Val.str "string")])))]
      = some (Val.str (pySerialize (Val.dict [("type", Val.str "string")])))
    ∧ deserialize_state
        (Val.str (pySerialize (Val.dict [("type", Val.str "string")]))) true
      = Except.ok (Val.dict [("type", Val.str "string")]) :=
  ⟨(schemaResponse_headers_serialized
      ⟨Val.dict [("type", Val.str "string")], Val.none, Val.none, Val.none, Val.none⟩
      true _ rfl).1,
   (schemaResponse_headers_serialized
      ⟨Val.dict [("type", Val.str "string")], Val.none, Val.none, Val.none, Val.none⟩
      true _ rfl).2.1 rfl⟩

end ApiConcierge
